import Mathlib

/-!
Verification of the registry upsert core (version/constraint comparison,
upsert decision engine, merge engine, publish workflow) against its
natural-language specification.

The Python source is shallowly embedded:

* `scripts/lib/version_compare.py` — versions are PEP-440 release tuples
  (`List Nat`); a constraint is a conjunction of comparison clauses; the
  constraint relationship is decided by sampling a fixed generated lattice
  of test versions, exactly as in the source.
* `scripts/lib/registry_merge.py` — registry entries are records with
  optional fields (a missing field models a missing dict key); functions
  that can raise a Python exception (`KeyError` on `entry["k"]`,
  `ValueError` from parsing a malformed version/constraint string) return
  `Option`, with `none` modelling the raised exception.
* `scripts/registry-upsert.py` + `scripts/lib/s3_operations.py` — the
  publish workflow is a pure state-transition function over a model of the
  remote object store (an association list of keys under the
  `garden/{garden_dir}/` prefix), with an explicit fault oracle for the
  remote operations that can fail and for external interference that makes
  the verification step mismatch.
-/

namespace RegistryUpsert

/-! ## Version model (`scripts/lib/version_compare.py`) -/

/-- `ConstraintRelationship` enum from `version_compare.py`.
The source's `PARTIAL` member is named `PARTIAL_OVERLAP` here. -/
inductive ConstraintRelationship
  | DISJOINT
  | SAME
  | SUPERSET
  | SUBSET
  | PARTIAL_OVERLAP
  deriving DecidableEq

/-- `VersionComparison` enum from `version_compare.py`. -/
inductive VersionComparison
  | NEWER
  | SAME
  | OLDER
  deriving DecidableEq

/-- PEP-440 release-segment comparison: segments are compared numerically,
left to right, with the shorter release padded with zeros (this is how
`packaging.version.Version` orders plain release versions, the only kind
that occurs in the generated test lattice and in this registry).
`cmpZerosLeft` compares an exhausted (all-zero-padded) release against the
remaining segments of the other. -/
def cmpZerosLeft : List Nat → Ordering
  | [] => .eq
  | b :: bs => (compare (0 : Nat) b).then (cmpZerosLeft bs)

/-- Compare a release against an exhausted (all-zero-padded) one. -/
def cmpZerosRight : List Nat → Ordering
  | [] => .eq
  | a :: as => (compare a 0).then (cmpZerosRight as)

def releaseCmp : List Nat → List Nat → Ordering
  | [], bs => cmpZerosLeft bs
  | a :: as, [] => cmpZerosRight (a :: as)
  | a :: as, b :: bs => (compare a b).then (releaseCmp as bs)

/-- A parsed version string: `valid` carries the release segments of a
well-formed version (e.g. "1.0.0" is `[1, 0, 0]`), `malformed` a string
`packaging.version.Version` rejects (parsing it raises `InvalidVersion`). -/
inductive VersionVal
  | valid (release : List Nat)
  | malformed (s : String)
  deriving DecidableEq

/-- One comparison clause operator of a version specifier. -/
inductive CmpOp
  | ge
  | le
  | gt
  | lt
  | eq
  | ne
  | compatible
  deriving DecidableEq

/-- One clause of a version constraint, e.g. `>=0.8.0`. -/
structure Clause where
  op : CmpOp
  ver : List Nat
  deriving DecidableEq

/-- A parsed constraint (`packaging.specifiers.SpecifierSet`): a
conjunction of comparison clauses. -/
abbrev Constraint := List Clause

/-- A constraint string as stored in an entry's `kamiwaza_version` field:
well-formed and non-empty (`valid`), the empty string (falsy in Python but
parseable), or a string `SpecifierSet` rejects (parsing raises
`InvalidSpecifier`). -/
inductive ConstraintVal
  | valid (c : Constraint)
  | emptyStr
  | malformed (s : String)
  deriving DecidableEq

/-- Truncate-or-pad a release to exactly `k` segments (for `~=` prefix
matching). -/
def padTake (v : List Nat) (k : Nat) : List Nat :=
  (v ++ List.replicate k 0).take k

/-- Does version `v` satisfy one specifier clause (`Version in Specifier`
semantics on plain release versions)? -/
def clause_holds (v : List Nat) (cl : Clause) : Bool :=
  match cl.op with
  | .ge => releaseCmp v cl.ver != Ordering.lt
  | .le => releaseCmp v cl.ver != Ordering.gt
  | .gt => releaseCmp v cl.ver == Ordering.gt
  | .lt => releaseCmp v cl.ver == Ordering.lt
  | .eq => releaseCmp v cl.ver == Ordering.eq
  | .ne => releaseCmp v cl.ver != Ordering.eq
  | .compatible =>
      (releaseCmp v cl.ver != Ordering.lt) &&
      (releaseCmp (padTake v (cl.ver.length - 1)) (cl.ver.take (cl.ver.length - 1)) ==
        Ordering.eq)

/-- `version in spec`: all clauses of the conjunction hold. -/
def constraint_matches (c : Constraint) (v : List Nat) : Bool :=
  c.all (clause_holds v)

/-- Insert a version into a list sorted by release order (helper for the
`sorted(versions)` call of `generate_test_versions`). -/
def insertSorted (v : List Nat) : List (List Nat) → List (List Nat)
  | [] => [v]
  | w :: ws => if releaseCmp v w = Ordering.gt then w :: insertSorted v ws else v :: w :: ws

/-- Sort a list of versions by release order. -/
def sortVersions (l : List (List Nat)) : List (List Nat) :=
  l.foldr insertSorted []

/-- `generate_test_versions`: majors 0–2 × minors 0–19 × patches 0–4, plus
a curated list of specific versions appended when not already present,
then sorted. -/
def generate_test_versions : List (List Nat) :=
  let base :=
    (List.range 3).flatMap fun major =>
      (List.range 20).flatMap fun minor =>
        (List.range 5).map fun patch => [major, minor, patch]
  let specific : List (List Nat) :=
    [[0, 8, 0], [0, 8, 1], [0, 9, 0], [0, 9, 5], [0, 10, 0],
     [1, 0, 0], [1, 0, 1], [1, 1, 0], [1, 2, 0]]
  let withSpecific :=
    specific.foldl (fun acc v => if v ∈ acc then acc else acc ++ [v]) base
  sortVersions withSpecific

/-- `get_test_versions` (the module-level cache is irrelevant to the value
returned). -/
def get_test_versions : List (List Nat) :=
  generate_test_versions

/-- `constraints_overlap`: some test version satisfies both constraints. -/
def constraints_overlap (c1 c2 : Constraint) : Bool :=
  get_test_versions.any fun v => constraint_matches c1 v && constraint_matches c2 v

/-- `is_superset c1 c2`: no test version satisfies `c2` but not `c1`. -/
def is_superset (c1 c2 : Constraint) : Bool :=
  get_test_versions.all fun v => !(constraint_matches c2 v && !(constraint_matches c1 v))

/-- `is_subset`. -/
def is_subset (c1 c2 : Constraint) : Bool :=
  is_superset c2 c1

/-- `constraints_equal`: every test version has identical membership in
both constraints. -/
def constraints_equal (c1 c2 : Constraint) : Bool :=
  get_test_versions.all fun v => constraint_matches c1 v == constraint_matches c2 v

/-- `compare_constraints` on already-parsed constraints (the body of the
source function after its two `parse_constraint` calls). -/
def compare_constraints (c1 c2 : Constraint) : ConstraintRelationship :=
  if constraints_equal c1 c2 then .SAME
  else if !(constraints_overlap c1 c2) then .DISJOINT
  else
    let c1_superset := is_superset c1 c2
    let c2_superset := is_superset c2 c1
    if c1_superset && !c2_superset then .SUPERSET
    else if c2_superset && !c1_superset then .SUBSET
    else .PARTIAL_OVERLAP

/-- `parse_constraint` on a stored constraint value: a malformed string
raises `ValueError` (`none`); the empty string parses to the empty
specifier set. -/
def parse_constraint : ConstraintVal → Option Constraint
  | .valid c => some c
  | .emptyStr => some []
  | .malformed _ => none

/-- `compare_constraints` as called by the decision engine: parse both
constraint strings (propagating the exception of a malformed one), then
compare. -/
def compare_constraints_val (a b : ConstraintVal) : Option ConstraintRelationship := do
  let c1 ← parse_constraint a
  let c2 ← parse_constraint b
  pure (compare_constraints c1 c2)

/-- `compare_versions`: parse both versions (a malformed one raises), then
compare by release precedence. -/
def compare_versions (v1 v2 : VersionVal) : Option VersionComparison :=
  match v1, v2 with
  | .valid a, .valid b =>
      match releaseCmp a b with
      | .gt => some .NEWER
      | .lt => some .OLDER
      | .eq => some .SAME
  | _, _ => none

/-! ### Symmetry lemmas for the constraint algebra -/

theorem list_all_congr {α : Type} (l : List α) (f g : α → Bool)
    (h : ∀ x ∈ l, f x = g x) : l.all f = l.all g := by
  induction l with
  | nil => rfl
  | cons a as ih =>
      simp only [List.all_cons]
      rw [h a (by simp), ih fun x hx => h x (by simp [hx])]

theorem list_any_congr {α : Type} (l : List α) (f g : α → Bool)
    (h : ∀ x ∈ l, f x = g x) : l.any f = l.any g := by
  induction l with
  | nil => rfl
  | cons a as ih =>
      simp only [List.any_cons]
      rw [h a (by simp), ih fun x hx => h x (by simp [hx])]

theorem bool_beq_comm (a b : Bool) : (a == b) = (b == a) := by
  cases a <;> cases b <;> rfl

theorem constraints_equal_comm (c1 c2 : Constraint) :
    constraints_equal c1 c2 = constraints_equal c2 c1 := by
  unfold constraints_equal
  exact list_all_congr _ _ _ fun v _ => bool_beq_comm _ _

theorem constraints_overlap_comm (c1 c2 : Constraint) :
    constraints_overlap c1 c2 = constraints_overlap c2 c1 := by
  unfold constraints_overlap
  exact list_any_congr _ _ _ fun v _ => Bool.and_comm _ _

theorem compare_constraints_symm_disjoint {c1 c2 : Constraint}
    (h : compare_constraints c1 c2 = .DISJOINT) :
    compare_constraints c2 c1 = .DISJOINT := by
  have he := constraints_equal_comm c1 c2
  have ho := constraints_overlap_comm c1 c2
  unfold compare_constraints at h ⊢
  cases hE : constraints_equal c1 c2 <;> cases hO : constraints_overlap c1 c2 <;>
    cases hS1 : is_superset c1 c2 <;> cases hS2 : is_superset c2 c1 <;>
    simp_all

/-- Reflexivity of `constraints_equal` (needed to show an entry can never
be "disjoint from itself"). -/
theorem constraints_equal_refl (c : Constraint) : constraints_equal c c = true := by
  unfold constraints_equal
  simp

theorem compare_constraints_self (c : Constraint) :
    compare_constraints c c = .SAME := by
  unfold compare_constraints
  simp [constraints_equal_refl]

/-! ## Registry entries and upsert decisions (`scripts/lib/registry_merge.py`)

A registry entry is a JSON object; the merge core reads the `name`,
`version` and `kamiwaza_version` keys and treats the rest as opaque
payload. An `Option` field models a missing key (`dict.get` returns
`None`); functions return `Option` with `none` modelling an uncaught
Python exception (`KeyError` from `entry["k"]`, `ValueError` from parsing
a malformed string). -/

structure Entry where
  name : Option String
  version : Option VersionVal
  kamiwaza_version : Option ConstraintVal
  payload : String
  deriving DecidableEq

/-- `UpsertAction` enum. -/
inductive UpsertAction
  | INSERT
  | REPLACE
  | FAIL
  deriving DecidableEq

/-- `UpsertResult` dataclass. -/
structure UpsertResult where
  name : String
  action : UpsertAction
  reason : String
  new_entry : Entry
  replaced_entries : List Entry := []
  error : Option String := none
  deriving DecidableEq

/-- `MergeResult` dataclass. -/
structure MergeResult where
  success : Bool
  merged_entries : List Entry
  actions : List UpsertResult
  errors : List String
  deriving DecidableEq

/-- Python truthiness of a `kamiwaza_version` value: `None` (missing key)
and the empty string are falsy; any other string is truthy. -/
def cvTruthy : Option ConstraintVal → Bool
  | none => false
  | some .emptyStr => false
  | some (.valid _) => true
  | some (.malformed _) => true

/-- Extract the stored constraint value (only used where truthiness has
been established). -/
def cvGet (o : Option ConstraintVal) : ConstraintVal :=
  o.getD .emptyStr

/-- Render a version for the human-readable `reason` strings. -/
def verString : VersionVal → String
  | .valid l => String.intercalate "." (l.map toString)
  | .malformed s => s

def opString : CmpOp → String
  | .ge => ">="
  | .le => "<="
  | .gt => ">"
  | .lt => "<"
  | .eq => "=="
  | .ne => "!="
  | .compatible => "~="

def clauseString (cl : Clause) : String :=
  opString cl.op ++ String.intercalate "." (cl.ver.map toString)

def constraintString (c : Constraint) : String :=
  String.intercalate "," (c.map clauseString)

def cvString : ConstraintVal → String
  | .valid c => constraintString c
  | .emptyStr => ""
  | .malformed s => s

/-- `determine_upsert_action_v1`: simple version-based replacement against
the first existing entry. -/
def determine_upsert_action_v1 (new_entry : Entry) :
    List Entry → Option UpsertResult
  | [] => do
      let name ← new_entry.name
      let _new_version ← new_entry.version
      pure { name := name, action := .INSERT, reason := "New extension",
             new_entry := new_entry }
  | existing :: _ => do
      let name ← new_entry.name
      let new_version ← new_entry.version
      let existing_version ← existing.version
      let comparison ← compare_versions new_version existing_version
      match comparison with
      | .NEWER =>
          pure { name := name, action := .REPLACE,
                 reason := "Version upgrade: " ++ verString existing_version ++ " -> " ++
                   verString new_version,
                 new_entry := new_entry, replaced_entries := [existing] }
      | .SAME =>
          pure { name := name, action := .FAIL,
                 reason := "Version " ++ verString new_version ++ " already exists (immutable)",
                 new_entry := new_entry,
                 error := some ("Cannot mutate existing version " ++ verString new_version) }
      | .OLDER =>
          pure { name := name, action := .FAIL,
                 reason := "Cannot downgrade: " ++ verString existing_version ++ " -> " ++
                   verString new_version,
                 new_entry := new_entry,
                 error := some ("Cannot downgrade from " ++ verString existing_version ++
                   " to " ++ verString new_version) }

/-- The `for existing in existing_entries` loop of
`determine_upsert_action_v2`: returns `Sum.inl entries_to_replace` when
the loop runs to completion, `Sum.inr r` when it returns the FAIL result
`r` early, `none` when an iteration raises. -/
def v2_scan (name : String) (new_entry : Entry) (new_constraint : ConstraintVal)
    (new_version : VersionVal) :
    List Entry → List Entry → Option (List Entry ⊕ UpsertResult)
  | [], entries_to_replace => some (Sum.inl entries_to_replace)
  | existing :: rest, entries_to_replace => do
      let existing_version ← existing.version
      if cvTruthy existing.kamiwaza_version = false then
        let r : UpsertResult :=
          { name := name, action := .FAIL,
            reason := "Existing entry missing kamiwaza_version",
            new_entry := new_entry,
            error := some ("Existing entry for " ++ name ++
              " is malformed (no kamiwaza_version)") }
        pure (Sum.inr r)
      else do
        let existing_constraint := cvGet existing.kamiwaza_version
        let relationship ← compare_constraints_val new_constraint existing_constraint
        match relationship with
        | .DISJOINT =>
            v2_scan name new_entry new_constraint new_version rest entries_to_replace
        | .SAME => do
            let version_cmp ← compare_versions new_version existing_version
            match version_cmp with
            | .NEWER =>
                v2_scan name new_entry new_constraint new_version rest
                  (entries_to_replace ++ [existing])
            | .SAME =>
                let r : UpsertResult :=
                  { name := name, action := .FAIL,
                    reason := "Version " ++ verString new_version ++ " with constraint " ++
                      cvString new_constraint ++ " already exists",
                    new_entry := new_entry,
                    error := some ("Cannot mutate existing version " ++
                      verString new_version) }
                pure (Sum.inr r)
            | .OLDER =>
                let r : UpsertResult :=
                  { name := name, action := .FAIL,
                    reason := "Cannot downgrade: " ++ verString existing_version ++
                      " -> " ++ verString new_version,
                    new_entry := new_entry,
                    error := some ("Cannot downgrade from " ++ verString existing_version ++
                      " to " ++ verString new_version) }
                pure (Sum.inr r)
        | .SUPERSET =>
            v2_scan name new_entry new_constraint new_version rest
              (entries_to_replace ++ [existing])
        | .SUBSET =>
            let r : UpsertResult :=
              { name := name, action := .FAIL,
                reason := "Would narrow support: " ++ cvString existing_constraint ++
                  " -> " ++ cvString new_constraint,
                new_entry := new_entry,
                error := some ("Cannot narrow kamiwaza_version from " ++
                  cvString existing_constraint ++ " to " ++ cvString new_constraint) }
            pure (Sum.inr r)
        | .PARTIAL_OVERLAP =>
            let r : UpsertResult :=
              { name := name, action := .FAIL,
                reason := "Partial overlap: " ++ cvString existing_constraint ++ " and " ++
                  cvString new_constraint,
                new_entry := new_entry,
                error := some ("Partial overlap between " ++ cvString existing_constraint ++
                  " and " ++ cvString new_constraint ++ " requires manual resolution") }
            pure (Sum.inr r)

/-- `determine_upsert_action_v2`: constraint-aware decision. -/
def determine_upsert_action_v2 (new_entry : Entry) :
    List Entry → Option UpsertResult
  | [] => do
      let name ← new_entry.name
      let _new_version ← new_entry.version
      if cvTruthy new_entry.kamiwaza_version = false then
        pure { name := name, action := .FAIL, reason := "Missing kamiwaza_version",
               new_entry := new_entry,
               error := some "v2 registry requires kamiwaza_version field" }
      else
        pure { name := name, action := .INSERT, reason := "New extension",
               new_entry := new_entry }
  | e :: rest => do
      let name ← new_entry.name
      let new_version ← new_entry.version
      let new_constraint := new_entry.kamiwaza_version
      if cvTruthy new_constraint = false then
        pure { name := name, action := .FAIL, reason := "Missing kamiwaza_version",
               new_entry := new_entry,
               error := some "v2 registry requires kamiwaza_version field" }
      else do
        let res ← v2_scan name new_entry (cvGet new_constraint) new_version (e :: rest) []
        match res with
        | Sum.inr r => pure r
        | Sum.inl entries_to_replace =>
            match entries_to_replace with
            | [] =>
                pure { name := name, action := .INSERT,
                       reason := "Disjoint kamiwaza_version: " ++
                         cvString (cvGet new_constraint),
                       new_entry := new_entry }
            | _ :: _ =>
                pure { name := name, action := .REPLACE,
                       reason := "Replacing " ++ toString entries_to_replace.length ++
                         " entry(ies)",
                       new_entry := new_entry,
                       replaced_entries := entries_to_replace }

/-- `determine_upsert_action_forced`: always INSERT or REPLACE-all, never
FAIL, no version or constraint check. -/
def determine_upsert_action_forced (new_entry : Entry) :
    List Entry → Option UpsertResult
  | [] => do
      let name ← new_entry.name
      pure { name := name, action := .INSERT, reason := "New extension (forced)",
             new_entry := new_entry }
  | e :: rest => do
      let name ← new_entry.name
      pure { name := name, action := .REPLACE,
             reason := "Forced replace of " ++ toString (e :: rest).length ++
               " entry(ies)",
             new_entry := new_entry, replaced_entries := e :: rest }

/-- `entry.get("name", "")`. -/
def entryName (e : Entry) : String := e.name.getD ""

/-- `_determine_upsert_action`: rule-set dispatch, forced first. -/
def _determine_upsert_action (local_entry : Entry) (existing : List Entry)
    (garden_version : String) (force_entries : List String) : Option UpsertResult :=
  if entryName local_entry ∈ force_entries then
    determine_upsert_action_forced local_entry existing
  else if garden_version = "v1" ∨ garden_version = "default" then
    determine_upsert_action_v1 local_entry existing
  else
    determine_upsert_action_v2 local_entry existing

/-- The type of the hashable key `(entry.get("name"),
entry.get("version"), entry.get("kamiwaza_version"))` used by
`merge_entries`; an absent field is keyed as `none` (Python `None`). -/
abbrev EntryKey := Option String × Option VersionVal × Option ConstraintVal

/-- The removal key of an entry. -/
def keyOf (e : Entry) : EntryKey :=
  (e.name, e.version, e.kamiwaza_version)

/-- `remote_by_name.get(name, [])`: the remote entries grouped by
`entry.get("name", "")`, in catalog order. -/
def remote_by_name (remote_entries : List Entry) (name : String) : List Entry :=
  remote_entries.filter fun e => entryName e == name

/-- The per-candidate loop of `merge_entries`, collecting one
`UpsertResult` per local entry. -/
def process_locals (remote_entries : List Entry) (garden_version : String)
    (force_entries : List String) : List Entry → Option (List UpsertResult)
  | [] => some []
  | le :: rest => do
      let a ← _determine_upsert_action le (remote_by_name remote_entries (entryName le))
        garden_version force_entries
      let as ← process_locals remote_entries garden_version force_entries rest
      pure (a :: as)

/-- Python `x or y` on an optional string (`None` and `""` are falsy). -/
def pyOr (o : Option String) (s : String) : String :=
  match o with
  | some e => if e = "" then s else e
  | none => s

/-- `errors.append(result.error or result.reason)`, over the whole batch. -/
def collect_errors (actions : List UpsertResult) : List String :=
  actions.filterMap fun r =>
    if r.action = .FAIL then some (pyOr r.error r.reason) else none

/-- `entries_to_remove`: keys of every entry referenced by a REPLACE
action (the Python set is modelled by a list used only for membership). -/
def collect_remove_keys (actions : List UpsertResult) : List EntryKey :=
  actions.flatMap fun r =>
    if r.action = .REPLACE then r.replaced_entries.map keyOf else []

/-- Decidable membership in the removal key set. -/
def keyMem (k : EntryKey) (l : List EntryKey) : Bool :=
  decide (k ∈ l)

/-- `merge_entries`: all-or-nothing batch merge of local candidates into a
remote catalog snapshot. -/
def merge_entries (local_entries remote_entries : List Entry) (garden_version : String)
    (force_entries : List String) : Option MergeResult := do
  let actions ← process_locals remote_entries garden_version force_entries local_entries
  let errors := collect_errors actions
  if errors.isEmpty = false then
    pure { success := false, merged_entries := [], actions := actions, errors := errors }
  else
    let entries_to_remove : List EntryKey := collect_remove_keys actions
    let merged :=
      (remote_entries.filter fun e => !(keyMem (keyOf e) entries_to_remove)) ++
      ((actions.filter fun a => a.action == .INSERT || a.action == .REPLACE).map
        fun a => a.new_entry)
    pure { success := true, merged_entries := merged, actions := actions, errors := [] }

/-! ## Characterizations of the decision engine -/

/-- Any result of the v1 rule set carries the candidate as `new_entry`;
an INSERT means there was no existing entry, a REPLACE replaces exactly
the first existing entry. -/
theorem v1_shape {n : Entry} {ex : List Entry} {r : UpsertResult}
    (h : determine_upsert_action_v1 n ex = some r) :
    r.new_entry = n ∧
    (r.action = .INSERT → ex = []) ∧
    (r.action = .REPLACE → ∃ e0 rest, ex = e0 :: rest ∧ r.replaced_entries = [e0]) := by
  cases ex with
  | nil =>
      simp only [determine_upsert_action_v1, Option.bind_eq_bind, Option.pure_def] at h
      cases hn : n.name with
      | none => rw [hn] at h; simp at h
      | some nm =>
        rw [hn] at h
        simp only [Option.some_bind] at h
        cases hv : n.version with
        | none => rw [hv] at h; simp at h
        | some nv =>
          rw [hv] at h
          simp only [Option.some_bind] at h
          injection h with h
          subst h
          simp
  | cons e0 rest =>
    simp only [determine_upsert_action_v1, Option.bind_eq_bind, Option.pure_def] at h
    cases hn : n.name with
    | none => rw [hn] at h; simp at h
    | some nm =>
      rw [hn] at h
      simp only [Option.some_bind] at h
      cases hv : n.version with
      | none => rw [hv] at h; simp at h
      | some nv =>
        rw [hv] at h
        simp only [Option.some_bind] at h
        cases hev : e0.version with
        | none => rw [hev] at h; simp at h
        | some ev =>
          rw [hev] at h
          simp only [Option.some_bind] at h
          cases hc : compare_versions nv ev with
          | none => rw [hc] at h; simp at h
          | some c =>
            rw [hc] at h
            simp only [Option.some_bind] at h
            cases c <;> injection h with h <;> subst h <;>
              refine ⟨rfl, ?_, ?_⟩ <;> intro hx <;>
                first
                  | exact ⟨e0, rest, rfl, rfl⟩
                  | cases hx

/-- Any result of the forced rule set carries the candidate, never FAILs,
and replaces exactly the existing entries. -/
theorem forced_shape {n : Entry} {ex : List Entry} {r : UpsertResult}
    (h : determine_upsert_action_forced n ex = some r) :
    r.new_entry = n ∧ r.action ≠ .FAIL ∧
    (ex = [] → r.action = .INSERT ∧ r.replaced_entries = []) ∧
    (ex ≠ [] → r.action = .REPLACE ∧ r.replaced_entries = ex) := by
  cases ex with
  | nil =>
    simp only [determine_upsert_action_forced, Option.bind_eq_bind, Option.pure_def] at h
    cases hn : n.name with
    | none => rw [hn] at h; simp at h
    | some nm =>
      rw [hn] at h
      simp only [Option.some_bind] at h
      injection h with h
      subst h
      exact ⟨rfl, by simp, fun _ => ⟨rfl, rfl⟩, fun hx => absurd rfl hx⟩
  | cons e rest =>
    simp only [determine_upsert_action_forced, Option.bind_eq_bind, Option.pure_def] at h
    cases hn : n.name with
    | none => rw [hn] at h; simp at h
    | some nm =>
      rw [hn] at h
      simp only [Option.some_bind] at h
      injection h with h
      subst h
      exact ⟨rfl, by simp, fun hx => absurd hx (List.cons_ne_nil e rest),
        fun _ => ⟨rfl, rfl⟩⟩

/-- C8: for all valid constraints, over the fixed generated lattice of
test versions, `compare_constraints c1 c2 = SUPERSET` holds exactly when
`compare_constraints c2 c1 = SUBSET`, and the SAME and DISJOINT
relationships are symmetric. -/
theorem c8_constraint_relationship_symmetry (c1 c2 : Constraint) :
    (compare_constraints c1 c2 = .SUPERSET ↔ compare_constraints c2 c1 = .SUBSET) ∧
    (compare_constraints c1 c2 = .SAME ↔ compare_constraints c2 c1 = .SAME) ∧
    (compare_constraints c1 c2 = .DISJOINT ↔ compare_constraints c2 c1 = .DISJOINT) := by
  have he : constraints_equal c2 c1 = constraints_equal c1 c2 := constraints_equal_comm c2 c1
  have ho : constraints_overlap c2 c1 = constraints_overlap c1 c2 :=
    constraints_overlap_comm c2 c1
  unfold compare_constraints
  cases hE : constraints_equal c1 c2 <;> cases hO : constraints_overlap c1 c2 <;>
    cases hS1 : is_superset c1 c2 <;> cases hS2 : is_superset c2 c1 <;>
    simp_all

/-- C7: the v1 rule set inserts when no same-name entry exists, replaces
the existing entry on a newer candidate version, and fails on an equal
(immutable) or older (downgrade) candidate version. -/
theorem c7_v1_upsert_rules (new_entry : Entry) (nm : String) (nv : VersionVal)
    (h1 : new_entry.name = some nm) (h2 : new_entry.version = some nv) :
    ((determine_upsert_action_v1 new_entry []).map (fun r => r.action) =
        some UpsertAction.INSERT) ∧
    (∀ e0 rest ev c, e0.version = some ev → compare_versions nv ev = some c →
      (determine_upsert_action_v1 new_entry (e0 :: rest)).map
          (fun r => (r.action, r.replaced_entries)) =
        some (match c with
          | VersionComparison.NEWER => (UpsertAction.REPLACE, [e0])
          | VersionComparison.SAME => (UpsertAction.FAIL, ([] : List Entry))
          | VersionComparison.OLDER => (UpsertAction.FAIL, ([] : List Entry)))) := by
  constructor
  · simp [determine_upsert_action_v1, h1, h2, Option.pure_def]
  · intro e0 rest ev c hev hc
    cases c <;> simp [determine_upsert_action_v1, h1, h2, hev, hc, Option.pure_def]

/-- Witness for C7 at concrete inputs: 1.1.0 over an existing 1.0.0
replaces it; a fresh name inserts. -/
theorem c7_v1_upsert_rules_witness :
    ((determine_upsert_action_v1
        (Entry.mk (some "app") (some (VersionVal.valid [1, 1, 0])) none "") []).map
      (fun r => r.action) = some UpsertAction.INSERT) ∧
    ((determine_upsert_action_v1
        (Entry.mk (some "app") (some (VersionVal.valid [1, 1, 0])) none "")
        [Entry.mk (some "app") (some (VersionVal.valid [1, 0, 0])) none ""]).map
      (fun r => (r.action, r.replaced_entries)) =
      some (UpsertAction.REPLACE,
        [Entry.mk (some "app") (some (VersionVal.valid [1, 0, 0])) none ""])) := by
  have h := c7_v1_upsert_rules
    (Entry.mk (some "app") (some (VersionVal.valid [1, 1, 0])) none "")
    "app" (VersionVal.valid [1, 1, 0]) rfl rfl
  refine ⟨h.1, ?_⟩
  exact h.2 (Entry.mk (some "app") (some (VersionVal.valid [1, 0, 0])) none "") []
    (VersionVal.valid [1, 0, 0]) VersionComparison.NEWER rfl (by decide)

/-- C6: the forced rule set inserts when no same-name entry exists and
otherwise replaces all existing same-name entries; it never fails,
whatever the candidate or existing versions and constraints are, and it
takes precedence over the v1 and v2 rule sets in the dispatch. -/
theorem c6_forced_override (new_entry : Entry) (nm : String)
    (h1 : new_entry.name = some nm) :
    ((determine_upsert_action_forced new_entry []).map (fun r => r.action) =
        some UpsertAction.INSERT) ∧
    (∀ e rest, (determine_upsert_action_forced new_entry (e :: rest)).map
        (fun r => (r.action, r.replaced_entries)) =
      some (UpsertAction.REPLACE, e :: rest)) ∧
    (∀ ex r, determine_upsert_action_forced new_entry ex = some r →
        r.action ≠ UpsertAction.FAIL) ∧
    (∀ ex gv fs, nm ∈ fs →
        _determine_upsert_action new_entry ex gv fs =
          determine_upsert_action_forced new_entry ex) := by
  refine ⟨?_, ?_, ?_, ?_⟩
  · simp [determine_upsert_action_forced, h1, Option.pure_def]
  · intro e rest
    simp [determine_upsert_action_forced, h1, Option.pure_def]
  · intro ex r h
    exact (forced_shape h).2.1
  · intro ex gv fs hmem
    have hn : entryName new_entry = nm := by simp [entryName, h1]
    simp [_determine_upsert_action, hn, hmem]

/-- Witness for C6 at concrete inputs: the candidate has no version and no
constraint, the existing entry has a malformed constraint and a higher
version (a downgrade), yet the forced decision is a full REPLACE, and the
dispatcher routes a force-listed name to the forced rule set. -/
theorem c6_forced_override_witness :
    ((determine_upsert_action_forced (Entry.mk (some "x") none none "") []).map
        (fun r => r.action) = some UpsertAction.INSERT) ∧
    ((determine_upsert_action_forced (Entry.mk (some "x") none none "")
        [Entry.mk (some "x") (some (VersionVal.valid [9, 0, 0]))
          (some (ConstraintVal.malformed "not-a-range")) "p"]).map
        (fun r => (r.action, r.replaced_entries)) =
      some (UpsertAction.REPLACE,
        [Entry.mk (some "x") (some (VersionVal.valid [9, 0, 0]))
          (some (ConstraintVal.malformed "not-a-range")) "p"])) ∧
    (_determine_upsert_action (Entry.mk (some "x") none none "") [] "v2" ["x"] =
      determine_upsert_action_forced (Entry.mk (some "x") none none "") []) := by
  have h := c6_forced_override (Entry.mk (some "x") none none "") "x" rfl
  exact ⟨h.1,
    h.2.1 (Entry.mk (some "x") (some (VersionVal.valid [9, 0, 0]))
      (some (ConstraintVal.malformed "not-a-range")) "p") [],
    h.2.2.2 [] "v2" ["x"] (by decide)⟩

/-! ### The v2 loop, classified per existing entry

For a candidate with truthy constraint value `nc` and version `nv`, each
existing entry either lets the loop continue (`v2_entry_ok`: DISJOINT, or
SAME constraint with a NEWER candidate version, or SUPERSET — the latter
two are marked for replacement, `v2_entry_marks`), or makes it return a
FAIL result (`v2_entry_fails`: SAME constraint with SAME/OLDER version,
SUBSET, PARTIAL overlap; also a falsy existing constraint), or raises. -/

def v2_entry_ok (nc : ConstraintVal) (nv : VersionVal) (e : Entry) : Bool :=
  match e.version with
  | none => false
  | some ev =>
      cvTruthy e.kamiwaza_version &&
      (match compare_constraints_val nc (cvGet e.kamiwaza_version) with
       | some .DISJOINT => true
       | some .SAME => compare_versions nv ev == some .NEWER
       | some .SUPERSET => true
       | _ => false)

def v2_entry_marks (nc : ConstraintVal) (nv : VersionVal) (e : Entry) : Bool :=
  match e.version with
  | none => false
  | some ev =>
      cvTruthy e.kamiwaza_version &&
      (match compare_constraints_val nc (cvGet e.kamiwaza_version) with
       | some .SAME => compare_versions nv ev == some .NEWER
       | some .SUPERSET => true
       | _ => false)

def v2_entry_fails (nc : ConstraintVal) (nv : VersionVal) (e : Entry) : Bool :=
  match e.version with
  | none => false
  | some ev =>
      cvTruthy e.kamiwaza_version &&
      (match compare_constraints_val nc (cvGet e.kamiwaza_version) with
       | some .SAME =>
           (compare_versions nv ev == some .SAME) ||
           (compare_versions nv ev == some .OLDER)
       | some .SUBSET => true
       | some .PARTIAL_OVERLAP => true
       | _ => false)

/-- A failing existing entry is never an ok one (the relationship and
version comparison are functions). -/
theorem v2_fails_not_ok {nc : ConstraintVal} {nv : VersionVal} {e : Entry}
    (hf : v2_entry_fails nc nv e = true) : v2_entry_ok nc nv e = false := by
  unfold v2_entry_fails at hf
  unfold v2_entry_ok
  cases hev : e.version with
  | none => rfl
  | some ev =>
    rw [hev] at hf
    simp only [Bool.and_eq_true] at hf
    obtain ⟨htr, hf⟩ := hf
    rw [htr]
    cases hrel : compare_constraints_val nc (cvGet e.kamiwaza_version) with
    | none => rw [hrel] at hf; simp at hf
    | some rel =>
      rw [hrel] at hf
      cases rel with
      | SAME =>
        cases hvc : compare_versions nv ev with
        | none => rw [hvc] at hf; simp at hf
        | some vc =>
          rw [hvc] at hf
          cases vc with
          | NEWER => simp at hf
          | SAME => simp [hvc]
          | OLDER => simp [hvc]
      | SUBSET => simp
      | PARTIAL_OVERLAP => simp
      | DISJOINT => simp at hf
      | SUPERSET => simp at hf

/-- Full characterization of a terminating `v2_scan` run: an early return
is a FAIL result carrying the candidate; a completed loop means every
existing entry was ok, and the accumulated replacement list is the
accumulator followed by the marked entries in order. -/
theorem v2_scan_spec (name : String) (ne : Entry) (nc : ConstraintVal) (nv : VersionVal) :
    ∀ (ex acc : List Entry) (res : List Entry ⊕ UpsertResult),
      v2_scan name ne nc nv ex acc = some res →
      (∀ r, res = Sum.inr r → r.action = .FAIL ∧ r.new_entry = ne) ∧
      (∀ m, res = Sum.inl m →
        (∀ e ∈ ex, v2_entry_ok nc nv e = true) ∧
        m = acc ++ ex.filter (v2_entry_marks nc nv)) := by
  intro ex
  induction ex with
  | nil =>
    intro acc res h
    simp only [v2_scan] at h
    injection h with h
    subst h
    constructor
    · intro r hr
      cases hr
    · intro m hm
      injection hm with hm
      subst hm
      exact ⟨fun e he => absurd he (List.not_mem_nil e), by simp⟩
  | cons e rest ih =>
    intro acc res h
    simp only [v2_scan, Option.bind_eq_bind, Option.pure_def] at h
    cases hev : e.version with
    | none => rw [hev] at h; simp at h
    | some ev =>
      rw [hev] at h
      simp only [Option.some_bind] at h
      by_cases hkv : cvTruthy e.kamiwaza_version = false
      · rw [if_pos hkv] at h
        injection h with h
        subst h
        refine ⟨fun r hr => ?_, fun m hm => by cases hm⟩
        injection hr with hr
        subst hr
        exact ⟨rfl, rfl⟩
      · rw [if_neg hkv] at h
        have hkv' : cvTruthy e.kamiwaza_version = true := by
          cases hx : cvTruthy e.kamiwaza_version
          · exact absurd hx hkv
          · rfl
        cases hrel : compare_constraints_val nc (cvGet e.kamiwaza_version) with
        | none => rw [hrel] at h; simp at h
        | some rel =>
          rw [hrel] at h
          simp only [Option.some_bind] at h
          cases rel with
          | DISJOINT =>
            have hspec := ih acc res h
            refine ⟨hspec.1, fun m hm => ?_⟩
            obtain ⟨hok, hmm⟩ := hspec.2 m hm
            refine ⟨fun x hx => ?_, ?_⟩
            · rcases List.mem_cons.mp hx with hx | hx
              · subst hx
                simp [v2_entry_ok, hev, hkv', hrel]
              · exact hok x hx
            · have hmk : v2_entry_marks nc nv e = false := by
                simp [v2_entry_marks, hev, hkv', hrel]
              rw [hmm]
              simp [List.filter_cons, hmk]
          | SAME =>
            cases hvc : compare_versions nv ev with
            | none => rw [hvc] at h; simp at h
            | some vc =>
              rw [hvc] at h
              simp only [Option.some_bind] at h
              cases vc with
              | NEWER =>
                have hspec := ih (acc ++ [e]) res h
                refine ⟨hspec.1, fun m hm => ?_⟩
                obtain ⟨hok, hmm⟩ := hspec.2 m hm
                refine ⟨fun x hx => ?_, ?_⟩
                · rcases List.mem_cons.mp hx with hx | hx
                  · subst hx
                    simp [v2_entry_ok, hev, hkv', hrel, hvc]
                  · exact hok x hx
                · have hmk : v2_entry_marks nc nv e = true := by
                    simp [v2_entry_marks, hev, hkv', hrel, hvc]
                  rw [hmm]
                  simp [List.filter_cons, hmk]
              | SAME =>
                injection h with h
                subst h
                refine ⟨fun r hr => ?_, fun m hm => by cases hm⟩
                injection hr with hr
                subst hr
                exact ⟨rfl, rfl⟩
              | OLDER =>
                injection h with h
                subst h
                refine ⟨fun r hr => ?_, fun m hm => by cases hm⟩
                injection hr with hr
                subst hr
                exact ⟨rfl, rfl⟩
          | SUPERSET =>
            have hspec := ih (acc ++ [e]) res h
            refine ⟨hspec.1, fun m hm => ?_⟩
            obtain ⟨hok, hmm⟩ := hspec.2 m hm
            refine ⟨fun x hx => ?_, ?_⟩
            · rcases List.mem_cons.mp hx with hx | hx
              · subst hx
                simp [v2_entry_ok, hev, hkv', hrel]
              · exact hok x hx
            · have hmk : v2_entry_marks nc nv e = true := by
                simp [v2_entry_marks, hev, hkv', hrel]
              rw [hmm]
              simp [List.filter_cons, hmk]
          | SUBSET =>
            injection h with h
            subst h
            refine ⟨fun r hr => ?_, fun m hm => by cases hm⟩
            injection hr with hr
            subst hr
            exact ⟨rfl, rfl⟩
          | PARTIAL_OVERLAP =>
            injection h with h
            subst h
            refine ⟨fun r hr => ?_, fun m hm => by cases hm⟩
            injection hr with hr
            subst hr
            exact ⟨rfl, rfl⟩

/-- Conversely, when every existing entry is ok the loop terminates
normally and accumulates exactly the marked entries. -/
theorem v2_scan_of_ok (name : String) (ne : Entry) (nc : ConstraintVal) (nv : VersionVal) :
    ∀ (ex acc : List Entry), (∀ e ∈ ex, v2_entry_ok nc nv e = true) →
      v2_scan name ne nc nv ex acc =
        some (Sum.inl (acc ++ ex.filter (v2_entry_marks nc nv))) := by
  intro ex
  induction ex with
  | nil =>
    intro acc _
    simp [v2_scan]
  | cons e rest ih =>
    intro acc hok
    have hoke := hok e (by simp)
    unfold v2_entry_ok at hoke
    cases hev : e.version with
    | none => rw [hev] at hoke; simp at hoke
    | some ev =>
      rw [hev] at hoke
      simp only [Bool.and_eq_true] at hoke
      obtain ⟨htr, hrest⟩ := hoke
      cases hrel : compare_constraints_val nc (cvGet e.kamiwaza_version) with
      | none => rw [hrel] at hrest; simp at hrest
      | some rel =>
        rw [hrel] at hrest
        have hokr : ∀ x ∈ rest, v2_entry_ok nc nv x = true :=
          fun x hx => hok x (by simp [hx])
        cases rel with
        | DISJOINT =>
          have hmk : v2_entry_marks nc nv e = false := by
            simp [v2_entry_marks, hev, htr, hrel]
          simp only [v2_scan, Option.bind_eq_bind, hev, Option.some_bind]
          rw [if_neg (by simp [htr])]
          simp only [hrel, Option.some_bind]
          rw [ih acc hokr]
          simp [List.filter_cons, hmk]
        | SAME =>
          cases hvc : compare_versions nv ev with
          | none => rw [hvc] at hrest; simp at hrest
          | some vc =>
            rw [hvc] at hrest
            cases vc with
            | NEWER =>
              have hmk : v2_entry_marks nc nv e = true := by
                simp [v2_entry_marks, hev, htr, hrel, hvc]
              simp only [v2_scan, Option.bind_eq_bind, hev, Option.some_bind]
              rw [if_neg (by simp [htr])]
              simp only [hrel, Option.some_bind, hvc]
              rw [ih (acc ++ [e]) hokr]
              simp [List.filter_cons, hmk]
            | SAME => simp at hrest
            | OLDER => simp at hrest
        | SUPERSET =>
          have hmk : v2_entry_marks nc nv e = true := by
            simp [v2_entry_marks, hev, htr, hrel]
          simp only [v2_scan, Option.bind_eq_bind, hev, Option.some_bind]
          rw [if_neg (by simp [htr])]
          simp only [hrel, Option.some_bind]
          rw [ih (acc ++ [e]) hokr]
          simp [List.filter_cons, hmk]
        | SUBSET => simp at hrest
        | PARTIAL_OVERLAP => simp at hrest

/-- Any result of the v2 rule set carries the candidate as `new_entry`. -/
theorem v2_new_entry {ne : Entry} {ex : List Entry} {r : UpsertResult}
    (h : determine_upsert_action_v2 ne ex = some r) : r.new_entry = ne := by
  cases ex with
  | nil =>
    simp only [determine_upsert_action_v2, Option.bind_eq_bind, Option.pure_def] at h
    cases hn : ne.name with
    | none => rw [hn] at h; simp at h
    | some nm =>
      rw [hn] at h
      simp only [Option.some_bind] at h
      cases hv : ne.version with
      | none => rw [hv] at h; simp at h
      | some nv =>
        rw [hv] at h
        simp only [Option.some_bind] at h
        by_cases ht : cvTruthy ne.kamiwaza_version = false
        · rw [if_pos ht] at h
          injection h with h
          subst h
          rfl
        · rw [if_neg ht] at h
          injection h with h
          subst h
          rfl
  | cons e rest =>
    simp only [determine_upsert_action_v2, Option.bind_eq_bind, Option.pure_def] at h
    cases hn : ne.name with
    | none => rw [hn] at h; simp at h
    | some nm =>
      rw [hn] at h
      simp only [Option.some_bind] at h
      cases hv : ne.version with
      | none => rw [hv] at h; simp at h
      | some nv =>
        rw [hv] at h
        simp only [Option.some_bind] at h
        by_cases ht : cvTruthy ne.kamiwaza_version = false
        · rw [if_pos ht] at h
          injection h with h
          subst h
          rfl
        · rw [if_neg ht] at h
          cases hs : v2_scan nm ne (cvGet ne.kamiwaza_version) nv (e :: rest) [] with
          | none => rw [hs] at h; simp at h
          | some res =>
            rw [hs] at h
            simp only [Option.some_bind] at h
            cases res with
            | inr r0 =>
              injection h with h
              subst h
              exact ((v2_scan_spec nm ne (cvGet ne.kamiwaza_version) nv
                (e :: rest) [] _ hs).1 r0 rfl).2
            | inl m =>
              cases m with
              | nil =>
                injection h with h
                subst h
                rfl
              | cons m0 ms =>
                injection h with h
                subst h
                rfl

/-- Structure of a non-FAIL v2 result: the candidate constraint was
truthy, name and version were present, and either there were no existing
entries (INSERT) or every existing entry was ok and exactly the marked
ones are replaced. -/
theorem v2_nonfail_shape {ne : Entry} {ex : List Entry} {r : UpsertResult}
    (h : determine_upsert_action_v2 ne ex = some r) (hf : r.action ≠ .FAIL) :
    cvTruthy ne.kamiwaza_version = true ∧
    ∃ nm nv, ne.name = some nm ∧ ne.version = some nv ∧
      ((ex = [] ∧ r.action = .INSERT ∧ r.replaced_entries = []) ∨
       ((∀ e ∈ ex, v2_entry_ok (cvGet ne.kamiwaza_version) nv e = true) ∧
        r.replaced_entries = ex.filter (v2_entry_marks (cvGet ne.kamiwaza_version) nv) ∧
        ((ex.filter (v2_entry_marks (cvGet ne.kamiwaza_version) nv) = [] ∧
          r.action = .INSERT) ∨
         (ex.filter (v2_entry_marks (cvGet ne.kamiwaza_version) nv) ≠ [] ∧
          r.action = .REPLACE)))) := by
  cases ex with
  | nil =>
    simp only [determine_upsert_action_v2, Option.bind_eq_bind, Option.pure_def] at h
    cases hn : ne.name with
    | none => rw [hn] at h; simp at h
    | some nm =>
      rw [hn] at h
      simp only [Option.some_bind] at h
      cases hv : ne.version with
      | none => rw [hv] at h; simp at h
      | some nv =>
        rw [hv] at h
        simp only [Option.some_bind] at h
        by_cases ht : cvTruthy ne.kamiwaza_version = false
        · rw [if_pos ht] at h
          injection h with h
          subst h
          exact absurd rfl hf
        · rw [if_neg ht] at h
          injection h with h
          subst h
          refine ⟨by simpa using ht, nm, nv, rfl, rfl, Or.inl ⟨rfl, rfl, rfl⟩⟩
  | cons e rest =>
    simp only [determine_upsert_action_v2, Option.bind_eq_bind, Option.pure_def] at h
    cases hn : ne.name with
    | none => rw [hn] at h; simp at h
    | some nm =>
      rw [hn] at h
      simp only [Option.some_bind] at h
      cases hv : ne.version with
      | none => rw [hv] at h; simp at h
      | some nv =>
        rw [hv] at h
        simp only [Option.some_bind] at h
        by_cases ht : cvTruthy ne.kamiwaza_version = false
        · rw [if_pos ht] at h
          injection h with h
          subst h
          exact absurd rfl hf
        · rw [if_neg ht] at h
          cases hs : v2_scan nm ne (cvGet ne.kamiwaza_version) nv (e :: rest) [] with
          | none => rw [hs] at h; simp at h
          | some res =>
            rw [hs] at h
            simp only [Option.some_bind] at h
            have hspec := v2_scan_spec nm ne (cvGet ne.kamiwaza_version) nv
              (e :: rest) [] res hs
            cases res with
            | inr r0 =>
              injection h with h
              subst h
              exact absurd (hspec.1 r0 rfl).1 hf
            | inl m =>
              obtain ⟨hok, hmm⟩ := hspec.2 m rfl
              cases hm : m with
              | nil =>
                rw [hm] at h hmm
                injection h with h
                subst h
                have hfil : (e :: rest).filter
                    (v2_entry_marks (cvGet ne.kamiwaza_version) nv) = [] := by
                  simpa using hmm.symm
                exact ⟨by simpa using ht, nm, nv, rfl, rfl,
                  Or.inr ⟨hok, by simp [hfil], Or.inl ⟨hfil, rfl⟩⟩⟩
              | cons m0 ms =>
                rw [hm] at h hmm
                injection h with h
                subst h
                have hfil : (e :: rest).filter
                    (v2_entry_marks (cvGet ne.kamiwaza_version) nv) = m0 :: ms := by
                  simpa using hmm.symm
                exact ⟨by simpa using ht, nm, nv, rfl, rfl,
                  Or.inr ⟨hok, by simp [hfil], Or.inr ⟨by simp [hfil], rfl⟩⟩⟩

/-- An ok existing entry has a truthy constraint value. -/
theorem v2_entry_ok_truthy {nc : ConstraintVal} {nv : VersionVal} {e : Entry}
    (h : v2_entry_ok nc nv e = true) : cvTruthy e.kamiwaza_version = true := by
  unfold v2_entry_ok at h
  cases hev : e.version with
  | none => rw [hev] at h; simp at h
  | some ev =>
    rw [hev] at h
    simp only [Bool.and_eq_true] at h
    exact h.1

/-- C3: the v2 rule set fails on a candidate with a missing or empty
constraint; inserts when no same-name entry exists; fails whenever some
existing entry has a missing/empty constraint or is in a failing
relationship (SAME constraint with an equal or older candidate version,
SUBSET, or partial overlap); and when every existing entry is either
disjoint (skipped) or marked for replacement (SAME constraint with a newer
candidate version, or SUPERSET), the final action replaces exactly the
marked entries if any were marked, else inserts. -/
theorem c3_v2_upsert_rules (new_entry : Entry) (nm : String) (nv : VersionVal)
    (h1 : new_entry.name = some nm) (h2 : new_entry.version = some nv) :
    (∀ ex, cvTruthy new_entry.kamiwaza_version = false →
        (determine_upsert_action_v2 new_entry ex).map (fun r => r.action) =
          some UpsertAction.FAIL) ∧
    (cvTruthy new_entry.kamiwaza_version = true →
        (determine_upsert_action_v2 new_entry []).map (fun r => r.action) =
          some UpsertAction.INSERT) ∧
    (∀ ex r e, determine_upsert_action_v2 new_entry ex = some r → e ∈ ex →
        cvTruthy e.kamiwaza_version = false → r.action = UpsertAction.FAIL) ∧
    (∀ ex r e, determine_upsert_action_v2 new_entry ex = some r → e ∈ ex →
        v2_entry_fails (cvGet new_entry.kamiwaza_version) nv e = true →
        r.action = UpsertAction.FAIL) ∧
    (∀ ex, cvTruthy new_entry.kamiwaza_version = true →
        (∀ e ∈ ex, v2_entry_ok (cvGet new_entry.kamiwaza_version) nv e = true) →
        (determine_upsert_action_v2 new_entry ex).map
            (fun r => (r.action, r.replaced_entries)) =
          some (if ex.filter (v2_entry_marks (cvGet new_entry.kamiwaza_version) nv) = []
                then (UpsertAction.INSERT, ([] : List Entry))
                else (UpsertAction.REPLACE,
                  ex.filter (v2_entry_marks (cvGet new_entry.kamiwaza_version) nv)))) := by
  refine ⟨?_, ?_, ?_, ?_, ?_⟩
  · intro ex hfalsy
    cases ex with
    | nil => simp [determine_upsert_action_v2, h1, h2, hfalsy, Option.pure_def]
    | cons e rest => simp [determine_upsert_action_v2, h1, h2, hfalsy, Option.pure_def]
  · intro htr
    simp [determine_upsert_action_v2, h1, h2, htr, Option.pure_def]
  · intro ex r e h he hfalsy
    by_contra hne
    obtain ⟨_, nm1, nv1, hn1, hv1, hcase⟩ := v2_nonfail_shape h hne
    rcases hcase with ⟨hex, _, _⟩ | ⟨hok, _, _⟩
    · subst hex
      exact absurd he (List.not_mem_nil e)
    · have htr := v2_entry_ok_truthy (hok e he)
      rw [htr] at hfalsy
      cases hfalsy
  · intro ex r e h he hfails
    by_contra hne
    obtain ⟨_, nm1, nv1, hn1, hv1, hcase⟩ := v2_nonfail_shape h hne
    rcases hcase with ⟨hex, _, _⟩ | ⟨hok, _, _⟩
    · subst hex
      exact absurd he (List.not_mem_nil e)
    · have hnv : nv1 = nv := by
        rw [h2] at hv1
        injection hv1 with hv2
        exact hv2.symm
      subst hnv
      have hoke := hok e he
      rw [v2_fails_not_ok hfails] at hoke
      cases hoke
  · intro ex htr hok
    cases ex with
    | nil => simp [determine_upsert_action_v2, h1, h2, htr, Option.pure_def]
    | cons e rest =>
      have hscan := v2_scan_of_ok nm new_entry (cvGet new_entry.kamiwaza_version) nv
        (e :: rest) [] hok
      simp only [List.nil_append] at hscan
      simp only [determine_upsert_action_v2, Option.bind_eq_bind, Option.pure_def, h1,
        Option.some_bind, h2]
      rw [if_neg (by simp [htr])]
      rw [hscan]
      simp only [Option.some_bind]
      cases hfil : (e :: rest).filter
          (v2_entry_marks (cvGet new_entry.kamiwaza_version) nv) with
      | nil => simp [hfil]
      | cons m0 ms => simp [hfil]

/-- Witness for C3 at a concrete input: a candidate without a
`kamiwaza_version` constraint is rejected by the v2 rule set. -/
theorem c3_v2_upsert_rules_witness :
    (determine_upsert_action_v2
        (Entry.mk (some "app") (some (VersionVal.valid [1, 0, 0])) none "") []).map
      (fun r => r.action) = some UpsertAction.FAIL :=
  (c3_v2_upsert_rules (Entry.mk (some "app") (some (VersionVal.valid [1, 0, 0])) none "")
    "app" (VersionVal.valid [1, 0, 0]) rfl rfl).1 [] rfl

/-! ### Merge engine lemmas -/

/-- `process_locals` produces exactly one `UpsertResult` per local entry,
each the decision for that entry against its same-name remote group. -/
theorem process_locals_spec (remote : List Entry) (gv : String) (fs : List String) :
    ∀ (locals : List Entry) (as : List UpsertResult),
      process_locals remote gv fs locals = some as →
      List.Forall₂ (fun le a =>
        _determine_upsert_action le (remote_by_name remote (entryName le)) gv fs = some a)
        locals as := by
  intro locals
  induction locals with
  | nil =>
    intro as h
    simp only [process_locals] at h
    injection h with h
    subst h
    exact List.Forall₂.nil
  | cons le rest ih =>
    intro as h
    simp only [process_locals, Option.bind_eq_bind, Option.pure_def] at h
    cases ha : _determine_upsert_action le (remote_by_name remote (entryName le)) gv fs with
    | none => rw [ha] at h; simp at h
    | some a =>
      rw [ha] at h
      simp only [Option.some_bind] at h
      cases hrest : process_locals remote gv fs rest with
      | none => rw [hrest] at h; simp at h
      | some tl =>
        rw [hrest] at h
        simp only [Option.some_bind] at h
        injection h with h
        subst h
        exact List.Forall₂.cons ha (ih tl hrest)

/-- Each element of the right list of a `Forall₂` has a related witness on
the left. -/
theorem forall2_mem_right {α β : Type} {R : α → β → Prop} :
    ∀ {l1 : List α} {l2 : List β}, List.Forall₂ R l1 l2 →
      ∀ b ∈ l2, ∃ a ∈ l1, R a b := by
  intro l1 l2 h
  induction h with
  | nil => intro b hb; exact absurd hb (List.not_mem_nil b)
  | @cons a b t1 t2 hr _ ih =>
    intro b0 hb0
    rcases List.mem_cons.mp hb0 with hb0 | hb0
    · subst hb0
      exact ⟨a, by simp, hr⟩
    · obtain ⟨a0, ha0, hra⟩ := ih b0 hb0
      exact ⟨a0, by simp [ha0], hra⟩

/-- The dispatcher preserves the candidate as `new_entry`. -/
theorem determine_new_entry {le : Entry} {ex : List Entry} {gv : String}
    {fs : List String} {r : UpsertResult}
    (h : _determine_upsert_action le ex gv fs = some r) : r.new_entry = le := by
  unfold _determine_upsert_action at h
  by_cases hf : entryName le ∈ fs
  · rw [if_pos hf] at h
    exact (forced_shape h).1
  · rw [if_neg hf] at h
    by_cases hgv : gv = "v1" ∨ gv = "default"
    · rw [if_pos hgv] at h
      exact (v1_shape h).1
    · rw [if_neg hgv] at h
      exact v2_new_entry h

/-- The new entries of the produced actions are the local batch itself. -/
theorem actions_new_entries {remote : List Entry} {gv : String} {fs : List String}
    {locals : List Entry} {as : List UpsertResult}
    (h : process_locals remote gv fs locals = some as) :
    as.map (fun a => a.new_entry) = locals := by
  have hf := process_locals_spec remote gv fs locals as h
  clear h
  induction hf with
  | nil => rfl
  | cons hr _ ih => simp [List.map_cons, determine_new_entry hr, ih]

/-- No collected errors exactly when no action is a FAIL. -/
theorem collect_errors_eq_nil (as : List UpsertResult) :
    collect_errors as = [] ↔ ∀ a ∈ as, a.action ≠ UpsertAction.FAIL := by
  unfold collect_errors
  rw [List.filterMap_eq_nil_iff]
  constructor
  · intro hall a ha hf
    have hx := hall a ha
    rw [if_pos hf] at hx
    cases hx
  · intro hall a ha
    rw [if_neg (hall a ha)]

/-- One collected error per FAIL action. -/
theorem collect_errors_length (as : List UpsertResult) :
    (collect_errors as).length =
      (as.filter fun a => a.action == UpsertAction.FAIL).length := by
  induction as with
  | nil => rfl
  | cons a rest ih =>
    by_cases hf : a.action = UpsertAction.FAIL
    · simp [collect_errors, List.filterMap_cons, List.filter_cons, hf] at ih ⊢
      exact ih
    · simp [collect_errors, List.filterMap_cons, List.filter_cons, hf] at ih ⊢
      exact ih

/-- Every entry replaced by a REPLACE action has its key collected. -/
theorem mem_collect_remove_keys {as : List UpsertResult} {a : UpsertResult} {e : Entry}
    (ha : a ∈ as) (hact : a.action = UpsertAction.REPLACE)
    (he : e ∈ a.replaced_entries) :
    keyOf e ∈ collect_remove_keys as := by
  unfold collect_remove_keys
  rw [List.mem_flatMap]
  refine ⟨a, ha, ?_⟩
  rw [if_pos hact]
  exact List.mem_map.mpr ⟨e, he, rfl⟩

/-- Value of `merge_entries` once the per-entry loop has produced its
results. -/
theorem merge_entries_eq {locals remote : List Entry} {gv : String} {fs : List String}
    {as : List UpsertResult}
    (hp : process_locals remote gv fs locals = some as) :
    merge_entries locals remote gv fs =
      (if collect_errors as = [] then
        some { success := true,
               merged_entries :=
                 (remote.filter fun e => !(keyMem (keyOf e) (collect_remove_keys as))) ++
                 ((as.filter fun a =>
                     a.action == UpsertAction.INSERT ||
                     a.action == UpsertAction.REPLACE).map fun a => a.new_entry),
               actions := as, errors := [] }
      else
        some { success := false, merged_entries := [], actions := as,
               errors := collect_errors as }) := by
  unfold merge_entries
  rw [hp]
  simp only [Option.bind_eq_bind, Option.some_bind, Option.pure_def]
  by_cases he : collect_errors as = []
  · rw [if_pos he]
    rw [he]
    simp
  · rw [if_neg he]
    have : (collect_errors as).isEmpty = false := by
      cases hc : collect_errors as with
      | nil => exact absurd hc he
      | cons x xs => rfl
    rw [this]
    simp

/-- Structure of a successful merge: the loop terminated, no action
failed, and the merged list is the unreplaced remote entries followed by
all candidates. -/
theorem merge_success_shape {locals remote : List Entry} {gv : String} {fs : List String}
    {r : MergeResult}
    (h : merge_entries locals remote gv fs = some r) (hs : r.success = true) :
    ∃ as, process_locals remote gv fs locals = some as ∧
      (∀ a ∈ as, a.action ≠ UpsertAction.FAIL) ∧
      r.actions = as ∧ r.errors = [] ∧
      r.merged_entries =
        (remote.filter fun e => !(keyMem (keyOf e) (collect_remove_keys as))) ++
        (as.map fun a => a.new_entry) := by
  cases hp : process_locals remote gv fs locals with
  | none =>
    unfold merge_entries at h
    rw [hp] at h
    simp at h
  | some as =>
    rw [merge_entries_eq hp] at h
    by_cases he : collect_errors as = []
    · rw [if_pos he] at h
      injection h with h
      subst h
      have hnof := (collect_errors_eq_nil as).mp he
      have hfeq : (as.filter fun a =>
          a.action == UpsertAction.INSERT || a.action == UpsertAction.REPLACE) = as := by
        rw [List.filter_eq_self]
        intro a ha
        have hne := hnof a ha
        cases hA : a.action with
        | INSERT => simp
        | REPLACE => simp
        | FAIL => exact absurd hA hne
      exact ⟨as, rfl, hnof, rfl, rfl, by rw [hfeq]⟩
    · rw [if_neg he] at h
      injection h with h
      subst h
      simp at hs

/-- C2: whenever any candidate decision is FAIL, the merge returns failure
with an empty merged list, one action per candidate, and one collected
error per failing candidate (all failures are surfaced, not only the
first). -/
theorem c2_all_or_nothing (local_entries remote_entries : List Entry) (gv : String)
    (fs : List String) (r : MergeResult)
    (h : merge_entries local_entries remote_entries gv fs = some r)
    (hfail : ∃ a ∈ r.actions, a.action = UpsertAction.FAIL) :
    r.success = false ∧ r.merged_entries = [] ∧
    r.actions.length = local_entries.length ∧
    r.errors.length =
      (r.actions.filter fun a => a.action == UpsertAction.FAIL).length := by
  cases hp : process_locals remote_entries gv fs local_entries with
  | none =>
    unfold merge_entries at h
    rw [hp] at h
    simp at h
  | some as =>
    have hlen : as.length = local_entries.length :=
      (List.Forall₂.length_eq (process_locals_spec _ _ _ _ _ hp)).symm
    rw [merge_entries_eq hp] at h
    by_cases he : collect_errors as = []
    · rw [if_pos he] at h
      injection h with h
      subst h
      obtain ⟨a, ha, haf⟩ := hfail
      exact absurd haf ((collect_errors_eq_nil as).mp he a ha)
    · rw [if_neg he] at h
      injection h with h
      subst h
      exact ⟨rfl, rfl, hlen, collect_errors_length as⟩

/-- Witness for C2 at a concrete v1 batch: one candidate would INSERT,
two would FAIL (immutable version and downgrade); the merge fails, mutates
nothing, and surfaces both errors. -/
theorem c2_all_or_nothing_witness :
    ((merge_entries
        [Entry.mk (some "b") (some (VersionVal.valid [1, 0, 0])) none "",
         Entry.mk (some "a") (some (VersionVal.valid [1, 0, 0])) none "",
         Entry.mk (some "a") (some (VersionVal.valid [0, 9, 0])) none ""]
        [Entry.mk (some "a") (some (VersionVal.valid [1, 0, 0])) none ""]
        "v1" []).getD (MergeResult.mk true [] [] [])).success = false ∧
    ((merge_entries
        [Entry.mk (some "b") (some (VersionVal.valid [1, 0, 0])) none "",
         Entry.mk (some "a") (some (VersionVal.valid [1, 0, 0])) none "",
         Entry.mk (some "a") (some (VersionVal.valid [0, 9, 0])) none ""]
        [Entry.mk (some "a") (some (VersionVal.valid [1, 0, 0])) none ""]
        "v1" []).getD (MergeResult.mk true [] [] [])).merged_entries = [] ∧
    ((merge_entries
        [Entry.mk (some "b") (some (VersionVal.valid [1, 0, 0])) none "",
         Entry.mk (some "a") (some (VersionVal.valid [1, 0, 0])) none "",
         Entry.mk (some "a") (some (VersionVal.valid [0, 9, 0])) none ""]
        [Entry.mk (some "a") (some (VersionVal.valid [1, 0, 0])) none ""]
        "v1" []).getD (MergeResult.mk true [] [] [])).actions.length =
      [Entry.mk (some "b") (some (VersionVal.valid [1, 0, 0])) none "",
       Entry.mk (some "a") (some (VersionVal.valid [1, 0, 0])) none "",
       Entry.mk (some "a") (some (VersionVal.valid [0, 9, 0])) none ""].length ∧
    ((merge_entries
        [Entry.mk (some "b") (some (VersionVal.valid [1, 0, 0])) none "",
         Entry.mk (some "a") (some (VersionVal.valid [1, 0, 0])) none "",
         Entry.mk (some "a") (some (VersionVal.valid [0, 9, 0])) none ""]
        [Entry.mk (some "a") (some (VersionVal.valid [1, 0, 0])) none ""]
        "v1" []).getD (MergeResult.mk true [] [] [])).errors.length =
      (((merge_entries
          [Entry.mk (some "b") (some (VersionVal.valid [1, 0, 0])) none "",
           Entry.mk (some "a") (some (VersionVal.valid [1, 0, 0])) none "",
           Entry.mk (some "a") (some (VersionVal.valid [0, 9, 0])) none ""]
          [Entry.mk (some "a") (some (VersionVal.valid [1, 0, 0])) none ""]
          "v1" []).getD (MergeResult.mk true [] [] [])).actions.filter
        fun a => a.action == UpsertAction.FAIL).length := by
  have hsome : merge_entries
      [Entry.mk (some "b") (some (VersionVal.valid [1, 0, 0])) none "",
       Entry.mk (some "a") (some (VersionVal.valid [1, 0, 0])) none "",
       Entry.mk (some "a") (some (VersionVal.valid [0, 9, 0])) none ""]
      [Entry.mk (some "a") (some (VersionVal.valid [1, 0, 0])) none ""]
      "v1" [] =
      some ((merge_entries
        [Entry.mk (some "b") (some (VersionVal.valid [1, 0, 0])) none "",
         Entry.mk (some "a") (some (VersionVal.valid [1, 0, 0])) none "",
         Entry.mk (some "a") (some (VersionVal.valid [0, 9, 0])) none ""]
        [Entry.mk (some "a") (some (VersionVal.valid [1, 0, 0])) none ""]
        "v1" []).getD (MergeResult.mk true [] [] [])) := by decide
  have hfail : ∃ a ∈ ((merge_entries
      [Entry.mk (some "b") (some (VersionVal.valid [1, 0, 0])) none "",
       Entry.mk (some "a") (some (VersionVal.valid [1, 0, 0])) none "",
       Entry.mk (some "a") (some (VersionVal.valid [0, 9, 0])) none ""]
      [Entry.mk (some "a") (some (VersionVal.valid [1, 0, 0])) none ""]
      "v1" []).getD (MergeResult.mk true [] [] [])).actions,
      a.action = UpsertAction.FAIL := by decide
  exact c2_all_or_nothing _ _ "v1" [] _ hsome hfail

/-- C10: `merge_entries` removes replaced remote entries purely by the key
triple `(name, version, kamiwaza_version)` (with absent fields keyed as
null): any remote entry sharing the key of some replaced entry is removed
from the merged output, even if its other payload fields differ. -/
theorem c10_replace_removes_by_key (locals remote : List Entry) (gv : String)
    (fs : List String) (r : MergeResult)
    (h : merge_entries locals remote gv fs = some r) (hs : r.success = true)
    (a : UpsertResult) (ha : a ∈ r.actions) (hact : a.action = UpsertAction.REPLACE)
    (rep e : Entry) (hrep : rep ∈ a.replaced_entries)
    (_he : e ∈ remote) (hkey : keyOf e = keyOf rep) (hnl : e ∉ locals) :
    e ∉ r.merged_entries := by
  obtain ⟨as, hp, hnof, hact_eq, herr, hmerged⟩ := merge_success_shape h hs
  rw [hact_eq] at ha
  intro hmem
  rw [hmerged] at hmem
  rcases List.mem_append.mp hmem with hmem | hmem
  · obtain ⟨_, hkm⟩ := List.mem_filter.mp hmem
    have hin : keyOf e ∈ collect_remove_keys as := by
      rw [hkey]
      exact mem_collect_remove_keys ha hact hrep
    simp [keyMem, hin] at hkm
  · have hel : e ∈ locals := by
      rw [← actions_new_entries hp]
      exact hmem
    exact hnl hel

/-- Witness for C10 at a concrete input: the remote catalog holds two
entries agreeing on name, version and (absent) constraint but with
different payloads; replacing one of them removes the other too. -/
theorem c10_replace_removes_by_key_witness :
    (Entry.mk (some "a") (some (VersionVal.valid [1, 0, 0])) none "p2") ∉
      ((merge_entries
        [Entry.mk (some "a") (some (VersionVal.valid [2, 0, 0])) none ""]
        [Entry.mk (some "a") (some (VersionVal.valid [1, 0, 0])) none "p1",
         Entry.mk (some "a") (some (VersionVal.valid [1, 0, 0])) none "p2"]
        "v1" []).getD (MergeResult.mk true [] [] [])).merged_entries := by
  have hsome : merge_entries
      [Entry.mk (some "a") (some (VersionVal.valid [2, 0, 0])) none ""]
      [Entry.mk (some "a") (some (VersionVal.valid [1, 0, 0])) none "p1",
       Entry.mk (some "a") (some (VersionVal.valid [1, 0, 0])) none "p2"]
      "v1" [] =
      some ((merge_entries
        [Entry.mk (some "a") (some (VersionVal.valid [2, 0, 0])) none ""]
        [Entry.mk (some "a") (some (VersionVal.valid [1, 0, 0])) none "p1",
         Entry.mk (some "a") (some (VersionVal.valid [1, 0, 0])) none "p2"]
        "v1" []).getD (MergeResult.mk true [] [] [])) := by decide
  exact c10_replace_removes_by_key
    [Entry.mk (some "a") (some (VersionVal.valid [2, 0, 0])) none ""]
    [Entry.mk (some "a") (some (VersionVal.valid [1, 0, 0])) none "p1",
     Entry.mk (some "a") (some (VersionVal.valid [1, 0, 0])) none "p2"]
    "v1" [] _ hsome (by decide)
    (((merge_entries
        [Entry.mk (some "a") (some (VersionVal.valid [2, 0, 0])) none ""]
        [Entry.mk (some "a") (some (VersionVal.valid [1, 0, 0])) none "p1",
         Entry.mk (some "a") (some (VersionVal.valid [1, 0, 0])) none "p2"]
        "v1" []).getD (MergeResult.mk true [] [] [])).actions.getD 0
      (UpsertResult.mk "" UpsertAction.FAIL "" (Entry.mk none none none "") [] none))
    (by decide) (by decide)
    (Entry.mk (some "a") (some (VersionVal.valid [1, 0, 0])) none "p1")
    (Entry.mk (some "a") (some (VersionVal.valid [1, 0, 0])) none "p2")
    (by decide) (by decide) (by decide) (by decide)

/-! ### Catalog invariants (spec section 3) -/

/-- Format v1 invariant: at most one entry per name (pairwise distinct
names, entries sharing the missing-name default included). -/
def names_unique (l : List Entry) : Prop :=
  l.Pairwise fun a b => entryName a ≠ entryName b

/-- Two entries carry valid constraints compared DISJOINT over the test
lattice. -/
def disjointEntries (a b : Entry) : Bool :=
  match a.kamiwaza_version, b.kamiwaza_version with
  | some (.valid ca), some (.valid cb) => compare_constraints ca cb == .DISJOINT
  | _, _ => false

/-- Format v2 invariant: entries sharing a name have pairwise disjoint
constraints (in particular never equal and never partially overlapping). -/
def v2_invariant (l : List Entry) : Prop :=
  l.Pairwise fun a b => entryName a = entryName b → disjointEntries a b = true

/-- The invariant of a catalog, per format (the dispatch mirrors
`_determine_upsert_action`: v1 for "v1"/"default", v2 otherwise). -/
def catalog_invariant (gv : String) (l : List Entry) : Prop :=
  if gv = "v1" ∨ gv = "default" then names_unique l else v2_invariant l

/-- C1 as stated is false: `merge_entries` never compares local
candidates against each other, so a batch with two same-name candidates
with equal constraints merges successfully into a catalog violating the
v2 invariant. -/
theorem c1_counterexample :
    catalog_invariant "v2" ([] : List Entry) ∧
    ((merge_entries
        [Entry.mk (some "a") (some (VersionVal.valid [1, 0, 0]))
           (some (ConstraintVal.valid [Clause.mk CmpOp.ge [1, 0]])) "",
         Entry.mk (some "a") (some (VersionVal.valid [1, 0, 0]))
           (some (ConstraintVal.valid [Clause.mk CmpOp.ge [1, 0]])) ""]
        [] "v2" []).getD (MergeResult.mk false [] [] [])).success = true ∧
    ¬ catalog_invariant "v2"
      ((merge_entries
        [Entry.mk (some "a") (some (VersionVal.valid [1, 0, 0]))
           (some (ConstraintVal.valid [Clause.mk CmpOp.ge [1, 0]])) "",
         Entry.mk (some "a") (some (VersionVal.valid [1, 0, 0]))
           (some (ConstraintVal.valid [Clause.mk CmpOp.ge [1, 0]])) ""]
        [] "v2" []).getD (MergeResult.mk false [] [] [])).merged_entries := by
  refine ⟨?_, by decide, ?_⟩
  · unfold catalog_invariant
    rw [if_neg (by decide)]
    exact List.Pairwise.nil
  · have hmerged : ((merge_entries
        [Entry.mk (some "a") (some (VersionVal.valid [1, 0, 0]))
           (some (ConstraintVal.valid [Clause.mk CmpOp.ge [1, 0]])) "",
         Entry.mk (some "a") (some (VersionVal.valid [1, 0, 0]))
           (some (ConstraintVal.valid [Clause.mk CmpOp.ge [1, 0]])) ""]
        [] "v2" []).getD (MergeResult.mk false [] [] [])).merged_entries =
        [Entry.mk (some "a") (some (VersionVal.valid [1, 0, 0]))
           (some (ConstraintVal.valid [Clause.mk CmpOp.ge [1, 0]])) "",
         Entry.mk (some "a") (some (VersionVal.valid [1, 0, 0]))
           (some (ConstraintVal.valid [Clause.mk CmpOp.ge [1, 0]])) ""] := by decide
    intro hinv
    unfold catalog_invariant at hinv
    rw [if_neg (by decide)] at hinv
    rw [hmerged] at hinv
    unfold v2_invariant at hinv
    have hpair := (List.pairwise_cons.mp hinv).1
      (Entry.mk (some "a") (some (VersionVal.valid [1, 0, 0]))
        (some (ConstraintVal.valid [Clause.mk CmpOp.ge [1, 0]])) "") (by simp) rfl
    have hd : disjointEntries
        (Entry.mk (some "a") (some (VersionVal.valid [1, 0, 0]))
          (some (ConstraintVal.valid [Clause.mk CmpOp.ge [1, 0]])) "")
        (Entry.mk (some "a") (some (VersionVal.valid [1, 0, 0]))
          (some (ConstraintVal.valid [Clause.mk CmpOp.ge [1, 0]])) "") = false := by
      simp [disjointEntries, compare_constraints_self]
    rw [hd] at hpair
    cases hpair

/-- An existing entry that is ok but not marked is DISJOINT from the
candidate constraint (with a truthy stored constraint). -/
theorem ok_not_marks {nc : ConstraintVal} {nv : VersionVal} {e : Entry}
    (hok : v2_entry_ok nc nv e = true) (hmk : v2_entry_marks nc nv e = false) :
    compare_constraints_val nc (cvGet e.kamiwaza_version) = some .DISJOINT ∧
    cvTruthy e.kamiwaza_version = true := by
  unfold v2_entry_ok at hok
  unfold v2_entry_marks at hmk
  cases hev : e.version with
  | none => rw [hev] at hok; simp at hok
  | some ev =>
    rw [hev] at hok hmk
    simp only [Bool.and_eq_true] at hok
    obtain ⟨htr, hok2⟩ := hok
    rw [htr] at hmk
    simp only [Bool.true_and] at hmk
    cases hrel : compare_constraints_val nc (cvGet e.kamiwaza_version) with
    | none => rw [hrel] at hok2; simp at hok2
    | some rel =>
      rw [hrel] at hok2 hmk
      cases rel <;> simp_all

/-- A defined constraint comparison means both operands parsed. -/
theorem ccv_some_shape {a b : ConstraintVal} {rel : ConstraintRelationship}
    (h : compare_constraints_val a b = some rel) :
    ∃ c1 c2, parse_constraint a = some c1 ∧ parse_constraint b = some c2 ∧
      compare_constraints c1 c2 = rel := by
  unfold compare_constraints_val at h
  simp only [Option.bind_eq_bind, Option.pure_def] at h
  cases ha : parse_constraint a with
  | none => rw [ha] at h; simp at h
  | some c1 =>
    rw [ha] at h
    simp only [Option.some_bind] at h
    cases hb : parse_constraint b with
    | none => rw [hb] at h; simp at h
    | some c2 =>
      rw [hb] at h
      simp only [Option.some_bind] at h
      injection h with h
      exact ⟨c1, c2, rfl, rfl, h⟩

/-- A truthy constraint value that parses is a stored valid constraint. -/
theorem truthy_parse_valid {o : Option ConstraintVal} {c : Constraint}
    (ht : cvTruthy o = true) (hp : parse_constraint (cvGet o) = some c) :
    o = some (ConstraintVal.valid c) := by
  cases o with
  | none => simp [cvTruthy] at ht
  | some cv =>
    cases cv with
    | valid c0 =>
      simp only [cvGet, Option.getD_some, parse_constraint, Option.some.injEq] at hp
      rw [hp]
    | emptyStr => simp [cvTruthy] at ht
    | malformed s0 => simp [cvGet, parse_constraint] at hp

/-- Membership in the same-name remote group. -/
theorem mem_remote_by_name {remote : List Entry} {s : Entry} {n : String}
    (hs : s ∈ remote) (hn : entryName s = n) : s ∈ remote_by_name remote n := by
  unfold remote_by_name
  exact List.mem_filter.mpr ⟨hs, by simp [hn]⟩

/-- Under the v1 invariant a same-name group has at most its head. -/
theorem remote_by_name_head {remote : List Entry} {n : String} (hu : names_unique remote)
    {e0 : Entry} {rest : List Entry} (hx : remote_by_name remote n = e0 :: rest)
    {s : Entry} (hs : s ∈ remote_by_name remote n) : s = e0 := by
  have hpw : (remote_by_name remote n).Pairwise
      (fun a b => entryName a ≠ entryName b) :=
    List.Pairwise.sublist (List.filter_sublist remote) hu
  rcases List.mem_cons.mp (by rw [← hx]; exact hs) with hcase | hcase
  · exact hcase
  · exfalso
    have h0 : entryName e0 = n := by
      have hmem : e0 ∈ remote_by_name remote n := by rw [hx]; simp
      simpa using (List.mem_filter.mp hmem).2
    have hsn : entryName s = n := by
      simpa using (List.mem_filter.mp hs).2
    rw [hx] at hpw
    exact (List.pairwise_cons.mp hpw).1 s hcase (h0.trans hsn.symm)

/-- A survivor sharing the name of a force-listed candidate is impossible:
the forced decision replaces the whole same-name group by key. -/
theorem forced_survivor_absurd {as : List UpsertResult} {a : UpsertResult}
    {c s : Entry} {remote : List Entry}
    (ham : a ∈ as)
    (hdet : determine_upsert_action_forced c (remote_by_name remote (entryName c)) =
      some a)
    (hsgrp : s ∈ remote_by_name remote (entryName c))
    (hkm : (!(keyMem (keyOf s) (collect_remove_keys as))) = true) : False := by
  obtain ⟨_, _, _, hnemp⟩ := forced_shape hdet
  cases hxg : remote_by_name remote (entryName c) with
  | nil => rw [hxg] at hsgrp; exact absurd hsgrp (List.not_mem_nil s)
  | cons e0 rest =>
    have hsh := hnemp (by rw [hxg]; exact List.cons_ne_nil e0 rest)
    have hsrep : s ∈ a.replaced_entries := by rw [hsh.2]; exact hsgrp
    have hkey : keyOf s ∈ collect_remove_keys as :=
      mem_collect_remove_keys ham hsh.1 hsrep
    simp [keyMem, hkey] at hkm

/-- C1 amended: if the remote catalog satisfies its format invariant and
the local batch contains at most one candidate per name, a successful
`merge_entries` preserves the invariant. (The unamended claim, quantifying
over batches with repeated names, is refuted by `c1_counterexample`.) -/
theorem c1_merge_preserves_invariant (locals remote : List Entry) (gv : String)
    (fs : List String) (r : MergeResult)
    (hinv : catalog_invariant gv remote)
    (hn : names_unique locals)
    (h : merge_entries locals remote gv fs = some r)
    (hs : r.success = true) :
    catalog_invariant gv r.merged_entries := by
  obtain ⟨as, hp, hnof, hact_eq, herr, hmerged⟩ := merge_success_shape h hs
  have hmapnew : as.map (fun a => a.new_entry) = locals := actions_new_entries hp
  have hforall := process_locals_spec remote gv fs locals as hp
  unfold catalog_invariant at hinv ⊢
  rw [hmerged]
  by_cases hgv : gv = "v1" ∨ gv = "default"
  · rw [if_pos hgv] at hinv ⊢
    unfold names_unique at hinv ⊢
    rw [List.pairwise_append]
    refine ⟨List.Pairwise.sublist (List.filter_sublist remote) hinv, ?_, ?_⟩
    · rw [hmapnew]
      exact hn
    · intro s hsm c hcm heq
      obtain ⟨hs_rem, hkm⟩ := List.mem_filter.mp hsm
      obtain ⟨a, ham, hnewa⟩ := List.mem_map.mp hcm
      obtain ⟨le, hlem, hdet⟩ := forall2_mem_right hforall a ham
      have hcle : c = le := by rw [← hnewa, determine_new_entry hdet]
      subst hcle
      have hsgrp : s ∈ remote_by_name remote (entryName c) :=
        mem_remote_by_name hs_rem heq
      have hnofa : a.action ≠ .FAIL := hnof a ham
      unfold _determine_upsert_action at hdet
      by_cases hforce : entryName c ∈ fs
      · rw [if_pos hforce] at hdet
        exact forced_survivor_absurd ham hdet hsgrp hkm
      · rw [if_neg hforce, if_pos hgv] at hdet
        obtain ⟨_, hins, hrep⟩ := v1_shape hdet
        cases hA : a.action with
        | FAIL => exact hnofa hA
        | INSERT =>
          rw [hins hA] at hsgrp
          exact absurd hsgrp (List.not_mem_nil s)
        | REPLACE =>
          obtain ⟨e0, rest, hxg, hraep⟩ := hrep hA
          have hse0 : s = e0 := remote_by_name_head hinv hxg hsgrp
          have hsrep : s ∈ a.replaced_entries := by rw [hraep, hse0]; simp
          have hkey : keyOf s ∈ collect_remove_keys as :=
            mem_collect_remove_keys ham hA hsrep
          simp [keyMem, hkey] at hkm
  · rw [if_neg hgv] at hinv ⊢
    unfold v2_invariant at hinv ⊢
    rw [List.pairwise_append]
    refine ⟨List.Pairwise.sublist (List.filter_sublist remote) hinv, ?_, ?_⟩
    · rw [hmapnew]
      exact List.Pairwise.imp (fun hab heq => absurd heq hab) hn
    · intro s hsm c hcm heq
      obtain ⟨hs_rem, hkm⟩ := List.mem_filter.mp hsm
      obtain ⟨a, ham, hnewa⟩ := List.mem_map.mp hcm
      obtain ⟨le, hlem, hdet⟩ := forall2_mem_right hforall a ham
      have hcle : c = le := by rw [← hnewa, determine_new_entry hdet]
      subst hcle
      have hsgrp : s ∈ remote_by_name remote (entryName c) :=
        mem_remote_by_name hs_rem heq
      have hnofa : a.action ≠ .FAIL := hnof a ham
      unfold _determine_upsert_action at hdet
      by_cases hforce : entryName c ∈ fs
      · rw [if_pos hforce] at hdet
        exact absurd (forced_survivor_absurd ham hdet hsgrp hkm) not_false
      · rw [if_neg hforce, if_neg hgv] at hdet
        obtain ⟨htrc, nm, nv, hnm, hnv, hcase⟩ := v2_nonfail_shape hdet hnofa
        rcases hcase with ⟨hxg, _, _⟩ | ⟨hok, hreps, hdich⟩
        · rw [hxg] at hsgrp
          exact absurd hsgrp (List.not_mem_nil s)
        · cases hmk : v2_entry_marks (cvGet c.kamiwaza_version) nv s with
          | true =>
            exfalso
            have hsfil : s ∈ (remote_by_name remote (entryName c)).filter
                (v2_entry_marks (cvGet c.kamiwaza_version) nv) :=
              List.mem_filter.mpr ⟨hsgrp, hmk⟩
            rcases hdich with ⟨hfe, _⟩ | ⟨_, hact⟩
            · rw [hfe] at hsfil
              exact absurd hsfil (List.not_mem_nil s)
            · have hsrep : s ∈ a.replaced_entries := by rw [hreps]; exact hsfil
              have hkey : keyOf s ∈ collect_remove_keys as :=
                mem_collect_remove_keys ham hact hsrep
              simp [keyMem, hkey] at hkm
          | false =>
            obtain ⟨hccv, htrs⟩ := ok_not_marks (hok s hsgrp) hmk
            obtain ⟨c1, c2, hpc1, hpc2, hcc⟩ := ccv_some_shape hccv
            have hckv : c.kamiwaza_version = some (.valid c1) :=
              truthy_parse_valid htrc hpc1
            have hskv : s.kamiwaza_version = some (.valid c2) :=
              truthy_parse_valid htrs hpc2
            have hflip : compare_constraints c2 c1 = .DISJOINT :=
              compare_constraints_symm_disjoint hcc
            simp [disjointEntries, hskv, hckv, hflip]

/-- Witness for the amended C1 at a concrete input: a v1 catalog with one
entry, a batch with one REPLACE and one INSERT of distinct names; the
merged catalog again has pairwise distinct names. -/
theorem c1_merge_preserves_invariant_witness :
    catalog_invariant "v1"
      ((merge_entries
        [Entry.mk (some "a") (some (VersionVal.valid [2, 0, 0])) none "",
         Entry.mk (some "b") (some (VersionVal.valid [1, 0, 0])) none ""]
        [Entry.mk (some "a") (some (VersionVal.valid [1, 0, 0])) none ""]
        "v1" []).getD (MergeResult.mk false [] [] [])).merged_entries := by
  have hsome : merge_entries
      [Entry.mk (some "a") (some (VersionVal.valid [2, 0, 0])) none "",
       Entry.mk (some "b") (some (VersionVal.valid [1, 0, 0])) none ""]
      [Entry.mk (some "a") (some (VersionVal.valid [1, 0, 0])) none ""]
      "v1" [] =
      some ((merge_entries
        [Entry.mk (some "a") (some (VersionVal.valid [2, 0, 0])) none "",
         Entry.mk (some "b") (some (VersionVal.valid [1, 0, 0])) none ""]
        [Entry.mk (some "a") (some (VersionVal.valid [1, 0, 0])) none ""]
        "v1" []).getD (MergeResult.mk false [] [] [])) := by decide
  have hinv : catalog_invariant "v1"
      [Entry.mk (some "a") (some (VersionVal.valid [1, 0, 0])) none ""] := by
    unfold catalog_invariant
    rw [if_pos (Or.inl rfl)]
    exact List.pairwise_singleton _ _
  have hn : names_unique
      [Entry.mk (some "a") (some (VersionVal.valid [2, 0, 0])) none "",
       Entry.mk (some "b") (some (VersionVal.valid [1, 0, 0])) none ""] := by
    unfold names_unique
    refine List.pairwise_cons.mpr ⟨?_, List.pairwise_singleton _ _⟩
    intro b hb
    rw [List.mem_singleton.mp hb]
    decide
  exact c1_merge_preserves_invariant _ _ "v1" [] _ hinv hn hsome (by decide)

/-! ## Publish workflow (`scripts/registry-upsert.py`, `scripts/lib/s3_operations.py`)

The remote store is modelled as the association list of object keys under
the `garden/{garden_dir}/` prefix.  `aws s3 sync` from the prefix into an
empty local directory yields the same map; a mirrored `sync --delete` to
the prefix replaces the map wholesale (the store contract of spec section
6: object-level atomicity, no cross-object atomicity — which is why the
verify step exists).  A `Fault` oracle models the remote operations which
can raise (`upload`, `restore`) and external interference that makes the
byte-comparison of the verify step fail.  The local file system
(validation of the local registry, scratch directories, the image-assets
subdirectory that the core does not interpret) is not modelled; the
outcome of step 1 (local validation) enters as the boolean `validOk`. -/

inductive RObj
  | entriesFile (es : List Entry)
  | lockFile
  | blob (s : String)
  deriving DecidableEq

abbrev Store := List (String × RObj)

/-- Default `KAMIWAZA_REGISTRY_LOCK_NAME`; the lock lives under the same
`garden/{garden_dir}/` prefix as the catalog files (`lock_s3_path`). -/
def lockKey : String := "registry.lock"

def lookupStore : Store → String → Option RObj
  | [], _ => none
  | (k, v) :: rest, k' => if k' = k then some v else lookupStore rest k'

/-- `put-object`: overwrite the object at a key. -/
def putObj (st : Store) (k : String) (v : RObj) : Store :=
  (k, v) :: st.filter fun p => !(p.1 == k)

/-- `aws s3 rm`: delete the object at a key. -/
def eraseObj (st : Store) (k : String) : Store :=
  st.filter fun p => !(p.1 == k)

/-- `check_lock_exists`. -/
def check_lock_exists (st : Store) : Bool :=
  (lookupStore st lockKey).isSome

/-- `acquire_lock`: check-then-write; `none` models the `RuntimeError`
raised when a lock marker is already present. -/
def acquire_lock (st : Store) : Option Store :=
  if check_lock_exists st then none
  else some (putObj st lockKey RObj.lockFile)

/-- `release_lock`: delete the marker if present, report whether one was
deleted. -/
def release_lock (st : Store) : Store × Bool :=
  if check_lock_exists st then (eraseObj st lockKey, true) else (st, false)

/-- `load_registry_json` on a downloaded directory: an absent file (or an
object of another shape) is an empty catalog. -/
def load_registry_entries (dir : Store) (k : String) : List Entry :=
  match lookupStore dir k with
  | some (RObj.entriesFile es) => es
  | _ => []

/-- `upload_registry` with `delete=True`: mirror the local directory to
the remote prefix. -/
def upload_registry (_st : Store) (dir : Store) : Store := dir

/-- One file comparison of `verify_upload` (`filecmp.cmp`, and the
exists-mismatch check). -/
def fileVerify (st dir : Store) (k : String) : Bool :=
  match lookupStore dir k, lookupStore st k with
  | some a, some b => decide (a = b)
  | none, none => true
  | _, _ => false

/-- `verify_upload`: re-download and byte-compare `apps.json` and
`tools.json`. -/
def verify_upload (st : Store) (dir : Store) : Bool :=
  fileVerify st dir "apps.json" && fileVerify st dir "tools.json"

/-- `restore_backup`: mirrored upload of the backup directory. -/
def restore_backup (st : Store) (backup : Store) : Store :=
  upload_registry st backup

/-- The two catalog files `merge_registries` writes to the output
directory on success (the image assets it also copies are opaque to the
core and not modelled). -/
def output_dir (apps tools : MergeResult) : Store :=
  [("apps.json", RObj.entriesFile apps.merged_entries),
   ("tools.json", RObj.entriesFile tools.merged_entries)]

/-- `merge_registries` on the downloaded remote directory (the local
registry files are given as entry lists; a `none` models a raised
exception inside the merge). -/
def merge_registries_model (localApps localTools : List Entry) (remoteDir : Store)
    (gv : String) (fs : List String) : Option (MergeResult × MergeResult) := do
  let apps ← merge_entries localApps (load_registry_entries remoteDir "apps.json") gv fs
  let tools ← merge_entries localTools (load_registry_entries remoteDir "tools.json") gv fs
  pure (apps, tools)

/-- Fault oracle for a live run: `uploadFails`/`restoreFails` model the
AWS CLI raising on those syncs; `verifyMismatch` models external
interference between upload and verification making the byte comparison
fail. -/
structure Fault where
  uploadFails : Bool
  verifyMismatch : Bool
  restoreFails : Bool
  deriving DecidableEq

/-- Observable outcome of one `main()` run: the final remote store, the
process exit code, the remote write operations performed in order, the
dry-run action log (the printed merge summary), the remote state right
after the upload step (when reached), the value returned by the final
`release_lock` call (when called), and whether a restore was attempted
and succeeded. -/
structure RunOutcome where
  store : Store
  exitCode : Nat
  writeOps : List String
  dryLog : Option (MergeResult × MergeResult)
  postUploadStore : Option Store
  releaseReturned : Option Bool
  restored : Option Bool
  deriving DecidableEq

/-- The `except`/`finally` failure path of `main()`: restore the backup if
one exists (unless the restore itself raises), then always release the
lock if it was acquired, and exit 1. -/
def fail_cleanup (stNow : Store) (backup : Option Store) (lockAcquired : Bool)
    (f : Fault) (writeOps : List String) (postUp : Option Store) : RunOutcome :=
  let restored : Option Bool :=
    match backup with
    | some _ => some (!(f.restoreFails))
    | none => none
  let st1 : Store :=
    match backup with
    | some b => if f.restoreFails then stNow else restore_backup stNow b
    | none => stNow
  let ops1 : List String :=
    match backup with
    | some _ => if f.restoreFails then writeOps else writeOps ++ ["sync-restore"]
    | none => writeOps
  if lockAcquired then
    let rel := (release_lock st1).2
    { store := (release_lock st1).1, exitCode := 1,
      writeOps := ops1 ++ (if rel then ["delete-lock"] else []),
      dryLog := none, postUploadStore := postUp,
      releaseReturned := some rel, restored := restored }
  else
    { store := st1, exitCode := 1, writeOps := ops1, dryLog := none,
      postUploadStore := postUp, releaseReturned := none, restored := restored }

/-- `main()` of `registry-upsert.py`: validation; dry-run (download
without backup, simulated merge, report, exit 0/1, no lock, no remote
write); or the live pipeline lock → download+backup → merge → mirrored
upload → verify → release, with rollback on any failure after the backup.
The backup taken at step 3 is the downloaded remote state, which at that
point includes the just-written lock marker object. -/
def registry_upsert_run (gv : String) (localApps localTools : List Entry)
    (fs : List String) (dryRun : Bool) (validOk : Bool) (f : Fault) (st0 : Store) :
    RunOutcome :=
  if validOk = false then
    { store := st0, exitCode := 1, writeOps := [], dryLog := none,
      postUploadStore := none, releaseReturned := none, restored := none }
  else if dryRun then
    match merge_registries_model localApps localTools st0 gv fs with
    | none =>
        { store := st0, exitCode := 1, writeOps := [], dryLog := none,
          postUploadStore := none, releaseReturned := none, restored := none }
    | some (apps, tools) =>
        { store := st0,
          exitCode := if apps.success && tools.success then 0 else 1,
          writeOps := [], dryLog := some (apps, tools),
          postUploadStore := none, releaseReturned := none, restored := none }
  else
    match acquire_lock st0 with
    | none =>
        { store := st0, exitCode := 1, writeOps := [], dryLog := none,
          postUploadStore := none, releaseReturned := none, restored := none }
    | some st1 =>
        match merge_registries_model localApps localTools st1 gv fs with
        | none => fail_cleanup st1 (some st1) true f ["put-lock"] none
        | some (apps, tools) =>
          if apps.success && tools.success then
            if f.uploadFails then
              fail_cleanup st1 (some st1) true f ["put-lock"] none
            else
              let od := output_dir apps tools
              let st2 := upload_registry st1 od
              if verify_upload st2 od && !(f.verifyMismatch) then
                { store := (release_lock st2).1, exitCode := 0,
                  writeOps := ["put-lock", "sync-upload"] ++
                    (if (release_lock st2).2 then ["delete-lock"] else []),
                  dryLog := none, postUploadStore := some st2,
                  releaseReturned := some (release_lock st2).2, restored := none }
              else
                fail_cleanup st2 (some st1) true f ["put-lock", "sync-upload"]
                  (some st2)
          else
            fail_cleanup st1 (some st1) true f ["put-lock"] none

/-! ### Store lemmas -/

theorem lookupStore_cons_ne {k k' : String} {v : RObj} {rest : Store} (h : k' ≠ k) :
    lookupStore ((k, v) :: rest) k' = lookupStore rest k' := by
  simp [lookupStore, h]

theorem lookupStore_cons_self {k : String} {v : RObj} {rest : Store} :
    lookupStore ((k, v) :: rest) k = some v := by
  simp [lookupStore]

theorem lookupStore_filter_ne (st : Store) (k k' : String) (hne : k' ≠ k) :
    lookupStore (st.filter fun p => !(p.1 == k)) k' = lookupStore st k' := by
  induction st with
  | nil => rfl
  | cons p rest ih =>
    obtain ⟨pk, pv⟩ := p
    by_cases hpk : pk = k
    · subst hpk
      rw [List.filter_cons_of_neg (by simp)]
      rw [ih, lookupStore_cons_ne hne]
    · rw [List.filter_cons_of_pos (by simp [hpk])]
      by_cases hk'p : k' = pk
      · subst hk'p
        rw [lookupStore_cons_self, lookupStore_cons_self]
      · rw [lookupStore_cons_ne hk'p, lookupStore_cons_ne hk'p, ih]

theorem lookupStore_putObj_ne (st : Store) (k k' : String) (v : RObj) (hne : k' ≠ k) :
    lookupStore (putObj st k v) k' = lookupStore st k' := by
  unfold putObj
  rw [lookupStore_cons_ne hne, lookupStore_filter_ne st k k' hne]

theorem lookupStore_putObj_self (st : Store) (k : String) (v : RObj) :
    lookupStore (putObj st k v) k = some v := by
  unfold putObj
  exact lookupStore_cons_self

theorem lookupStore_eraseObj_self (st : Store) (k : String) :
    lookupStore (eraseObj st k) k = none := by
  unfold eraseObj
  induction st with
  | nil => rfl
  | cons p rest ih =>
    obtain ⟨pk, pv⟩ := p
    by_cases hpk : pk = k
    · subst hpk
      rw [List.filter_cons_of_neg (by simp)]
      exact ih
    · rw [List.filter_cons_of_pos (by simp [hpk])]
      rw [lookupStore_cons_ne (fun hx => hpk hx.symm)]
      exact ih

theorem lookupStore_eraseObj_ne (st : Store) (k k' : String) (hne : k' ≠ k) :
    lookupStore (eraseObj st k) k' = lookupStore st k' := by
  unfold eraseObj
  exact lookupStore_filter_ne st k k' hne

/-- The merged output directory contains no lock marker. -/
theorem output_dir_no_lock (apps tools : MergeResult) :
    lookupStore (output_dir apps tools) lockKey = none := by
  unfold output_dir
  rw [lookupStore_cons_ne (by decide), lookupStore_cons_ne (by decide)]
  rfl

/-- Verification of an uploaded directory against itself passes. -/
theorem verify_upload_self (dir : Store) : verify_upload dir dir = true := by
  unfold verify_upload fileVerify
  cases h1 : lookupStore dir "apps.json" <;> cases h2 : lookupStore dir "tools.json" <;>
    simp [h1, h2]

/-- Evaluation of a live run that acquires the lock and merges
successfully, for every fault configuration: upload failure and
verification mismatch take the failure path with the backup (the
downloaded remote state including the lock marker); otherwise the run
succeeds, leaving exactly the merged output uploaded and finding no lock
to release (the mirrored upload already deleted it). -/
theorem run_live_eq (gv : String) (la lt : List Entry) (fs : List String) (st0 : Store)
    (f : Fault) (hlock : lookupStore st0 lockKey = none)
    (apps tools : MergeResult)
    (hm : merge_registries_model la lt (putObj st0 lockKey RObj.lockFile) gv fs =
      some (apps, tools))
    (hsucc : apps.success = true) (htsucc : tools.success = true) :
    registry_upsert_run gv la lt fs false true f st0 =
      (if f.uploadFails = true then
        fail_cleanup (putObj st0 lockKey RObj.lockFile)
          (some (putObj st0 lockKey RObj.lockFile)) true f ["put-lock"] none
      else if f.verifyMismatch = true then
        fail_cleanup (output_dir apps tools)
          (some (putObj st0 lockKey RObj.lockFile)) true f
          ["put-lock", "sync-upload"] (some (output_dir apps tools))
      else
        { store := output_dir apps tools, exitCode := 0,
          writeOps := ["put-lock", "sync-upload"], dryLog := none,
          postUploadStore := some (output_dir apps tools),
          releaseReturned := some false, restored := none }) := by
  have hacq : acquire_lock st0 = some (putObj st0 lockKey RObj.lockFile) := by
    simp [acquire_lock, check_lock_exists, hlock]
  have hrel : release_lock (output_dir apps tools) = (output_dir apps tools, false) := by
    simp [release_lock, check_lock_exists, output_dir_no_lock]
  cases hU : f.uploadFails <;> cases hV : f.verifyMismatch <;>
    simp [registry_upsert_run, hacq, hm, hsucc, htsucc, hU, hV, upload_registry,
      verify_upload_self, hrel]

/-- C4: in a live publish where the upload succeeds but verification
fails, the workflow restores the pre-publish backup and releases the lock:
afterwards the remote catalog files equal their pre-publish state and no
lock marker remains. More generally, for any failure after the backup step
(upload failure or verification mismatch) a restore is attempted and the
final cleanup leaves no lock marker regardless of whether the restore
succeeded; when it succeeds the catalog files are restored. -/
theorem c4_rollback_on_failure (gv : String) (la lt : List Entry) (fs : List String)
    (st0 : Store) (hlock : lookupStore st0 lockKey = none)
    (apps tools : MergeResult)
    (hm : merge_registries_model la lt (putObj st0 lockKey RObj.lockFile) gv fs =
      some (apps, tools))
    (hsucc : apps.success = true) (htsucc : tools.success = true) :
    (lookupStore (registry_upsert_run gv la lt fs false true
        (Fault.mk false true false) st0).store "apps.json" =
          lookupStore st0 "apps.json" ∧
      lookupStore (registry_upsert_run gv la lt fs false true
        (Fault.mk false true false) st0).store "tools.json" =
          lookupStore st0 "tools.json" ∧
      lookupStore (registry_upsert_run gv la lt fs false true
        (Fault.mk false true false) st0).store lockKey = none ∧
      (registry_upsert_run gv la lt fs false true
        (Fault.mk false true false) st0).restored = some true) ∧
    (∀ f : Fault, f.uploadFails = true ∨ f.verifyMismatch = true →
      ((registry_upsert_run gv la lt fs false true f st0).restored).isSome = true ∧
      lookupStore (registry_upsert_run gv la lt fs false true f st0).store lockKey =
        none ∧
      (f.restoreFails = false →
        lookupStore (registry_upsert_run gv la lt fs false true f st0).store
            "apps.json" = lookupStore st0 "apps.json" ∧
        lookupStore (registry_upsert_run gv la lt fs false true f st0).store
            "tools.json" = lookupStore st0 "tools.json")) := by
  have hrel1 : release_lock (putObj st0 lockKey RObj.lockFile) =
      (eraseObj (putObj st0 lockKey RObj.lockFile) lockKey, true) := by
    simp [release_lock, check_lock_exists, lookupStore_putObj_self]
  have hrelod : release_lock (output_dir apps tools) =
      (output_dir apps tools, false) := by
    simp [release_lock, check_lock_exists, output_dir_no_lock]
  have happs : lookupStore (eraseObj (putObj st0 lockKey RObj.lockFile) lockKey)
      "apps.json" = lookupStore st0 "apps.json" := by
    rw [lookupStore_eraseObj_ne _ _ _ (by decide),
      lookupStore_putObj_ne _ _ _ _ (by decide)]
  have htools : lookupStore (eraseObj (putObj st0 lockKey RObj.lockFile) lockKey)
      "tools.json" = lookupStore st0 "tools.json" := by
    rw [lookupStore_eraseObj_ne _ _ _ (by decide),
      lookupStore_putObj_ne _ _ _ _ (by decide)]
  have hlockgone : lookupStore (eraseObj (putObj st0 lockKey RObj.lockFile) lockKey)
      lockKey = none := lookupStore_eraseObj_self _ _
  constructor
  · rw [run_live_eq gv la lt fs st0 (Fault.mk false true false) hlock apps tools hm
      hsucc htsucc]
    simp [fail_cleanup, restore_backup, upload_registry, hrel1, happs, htools, hlockgone]
  · intro f hf
    rw [run_live_eq gv la lt fs st0 f hlock apps tools hm hsucc htsucc]
    obtain ⟨fu, fv, fr⟩ := f
    cases fu <;> cases fv <;> cases fr <;>
      simp_all [fail_cleanup, restore_backup, upload_registry, hrel1, hrelod, happs,
        htools, hlockgone, output_dir_no_lock]

/-- Witness for C4 at a concrete input: one remote app entry, a candidate
upgrade, upload succeeds, verification fails; the final store has the
original apps.json back and no lock. -/
theorem c4_rollback_on_failure_witness :
    lookupStore (registry_upsert_run "v1"
        [Entry.mk (some "a") (some (VersionVal.valid [2, 0, 0])) none ""] [] []
        false true (Fault.mk false true false)
        [("apps.json", RObj.entriesFile
          [Entry.mk (some "a") (some (VersionVal.valid [1, 0, 0])) none ""])]).store
      "apps.json" =
      lookupStore
        [("apps.json", RObj.entriesFile
          [Entry.mk (some "a") (some (VersionVal.valid [1, 0, 0])) none ""])]
        "apps.json" ∧
    lookupStore (registry_upsert_run "v1"
        [Entry.mk (some "a") (some (VersionVal.valid [2, 0, 0])) none ""] [] []
        false true (Fault.mk false true false)
        [("apps.json", RObj.entriesFile
          [Entry.mk (some "a") (some (VersionVal.valid [1, 0, 0])) none ""])]).store
      "tools.json" =
      lookupStore
        [("apps.json", RObj.entriesFile
          [Entry.mk (some "a") (some (VersionVal.valid [1, 0, 0])) none ""])]
        "tools.json" ∧
    lookupStore (registry_upsert_run "v1"
        [Entry.mk (some "a") (some (VersionVal.valid [2, 0, 0])) none ""] [] []
        false true (Fault.mk false true false)
        [("apps.json", RObj.entriesFile
          [Entry.mk (some "a") (some (VersionVal.valid [1, 0, 0])) none ""])]).store
      lockKey = none ∧
    (registry_upsert_run "v1"
        [Entry.mk (some "a") (some (VersionVal.valid [2, 0, 0])) none ""] [] []
        false true (Fault.mk false true false)
        [("apps.json", RObj.entriesFile
          [Entry.mk (some "a") (some (VersionVal.valid [1, 0, 0])) none ""])]).restored
      = some true := by
  exact (c4_rollback_on_failure "v1"
    [Entry.mk (some "a") (some (VersionVal.valid [2, 0, 0])) none ""] [] []
    [("apps.json", RObj.entriesFile
      [Entry.mk (some "a") (some (VersionVal.valid [1, 0, 0])) none ""])]
    (by decide)
    ((merge_registries_model
        [Entry.mk (some "a") (some (VersionVal.valid [2, 0, 0])) none ""] []
        (putObj [("apps.json", RObj.entriesFile
          [Entry.mk (some "a") (some (VersionVal.valid [1, 0, 0])) none ""])]
          lockKey RObj.lockFile) "v1" []).getD
      (MergeResult.mk false [] [] [], MergeResult.mk false [] [] [])).1
    ((merge_registries_model
        [Entry.mk (some "a") (some (VersionVal.valid [2, 0, 0])) none ""] []
        (putObj [("apps.json", RObj.entriesFile
          [Entry.mk (some "a") (some (VersionVal.valid [1, 0, 0])) none ""])]
          lockKey RObj.lockFile) "v1" []).getD
      (MergeResult.mk false [] [] [], MergeResult.mk false [] [] [])).2
    (by decide) (by decide) (by decide)).1

/-- C9: on the fault-free success path, the mirrored upload (sync with
delete) removes the lock marker — the lock key lies under the synced
prefix and the merged output contains no lock file — so the remote state
right after upload already has no lock, it stays that way to completion,
and the final release-lock step finds nothing to delete (returns false). -/
theorem c9_upload_clears_lock (gv : String) (la lt : List Entry) (fs : List String)
    (st0 : Store) (hlock : lookupStore st0 lockKey = none)
    (apps tools : MergeResult)
    (hm : merge_registries_model la lt (putObj st0 lockKey RObj.lockFile) gv fs =
      some (apps, tools))
    (hsucc : apps.success = true) (htsucc : tools.success = true) :
    (registry_upsert_run gv la lt fs false true (Fault.mk false false false)
      st0).exitCode = 0 ∧
    (registry_upsert_run gv la lt fs false true (Fault.mk false false false)
      st0).postUploadStore = some (output_dir apps tools) ∧
    lookupStore (output_dir apps tools) lockKey = none ∧
    (registry_upsert_run gv la lt fs false true (Fault.mk false false false)
      st0).store = output_dir apps tools ∧
    (registry_upsert_run gv la lt fs false true (Fault.mk false false false)
      st0).releaseReturned = some false := by
  rw [run_live_eq gv la lt fs st0 (Fault.mk false false false) hlock apps tools hm
    hsucc htsucc]
  exact ⟨by simp, by simp, output_dir_no_lock apps tools, by simp, by simp⟩

/-- Witness for C9 at a concrete input: a fault-free live publish of an
upgrade exits 0 with the lock marker absent from the post-upload and
final stores, and the release step reporting no lock found. -/
theorem c9_upload_clears_lock_witness :
    (registry_upsert_run "v1"
      [Entry.mk (some "a") (some (VersionVal.valid [2, 0, 0])) none ""] [] []
      false true (Fault.mk false false false)
      [("apps.json", RObj.entriesFile
        [Entry.mk (some "a") (some (VersionVal.valid [1, 0, 0])) none ""])]).exitCode
      = 0 ∧
    lookupStore (registry_upsert_run "v1"
      [Entry.mk (some "a") (some (VersionVal.valid [2, 0, 0])) none ""] [] []
      false true (Fault.mk false false false)
      [("apps.json", RObj.entriesFile
        [Entry.mk (some "a") (some (VersionVal.valid [1, 0, 0])) none ""])]).store
      lockKey = none ∧
    (registry_upsert_run "v1"
      [Entry.mk (some "a") (some (VersionVal.valid [2, 0, 0])) none ""] [] []
      false true (Fault.mk false false false)
      [("apps.json", RObj.entriesFile
        [Entry.mk (some "a") (some (VersionVal.valid [1, 0, 0])) none ""])]).releaseReturned
      = some false := by
  have h := c9_upload_clears_lock "v1"
    [Entry.mk (some "a") (some (VersionVal.valid [2, 0, 0])) none ""] [] []
    [("apps.json", RObj.entriesFile
      [Entry.mk (some "a") (some (VersionVal.valid [1, 0, 0])) none ""])]
    (by decide)
    ((merge_registries_model
        [Entry.mk (some "a") (some (VersionVal.valid [2, 0, 0])) none ""] []
        (putObj [("apps.json", RObj.entriesFile
          [Entry.mk (some "a") (some (VersionVal.valid [1, 0, 0])) none ""])]
          lockKey RObj.lockFile) "v1" []).getD
      (MergeResult.mk false [] [] [], MergeResult.mk false [] [] [])).1
    ((merge_registries_model
        [Entry.mk (some "a") (some (VersionVal.valid [2, 0, 0])) none ""] []
        (putObj [("apps.json", RObj.entriesFile
          [Entry.mk (some "a") (some (VersionVal.valid [1, 0, 0])) none ""])]
          lockKey RObj.lockFile) "v1" []).getD
      (MergeResult.mk false [] [] [], MergeResult.mk false [] [] [])).2
    (by decide) (by decide) (by decide)
  refine ⟨h.1, ?_, h.2.2.2.2⟩
  rw [h.2.2.2.1]
  exact output_dir_no_lock _ _

/-- C5 amended: a dry run never mutates the remote store, performs no
remote write operation (in particular never creates a lock marker), and
reports the simulated action log; it exits 0 when the simulated merge
succeeds and 1 when it predicts failure — not always 0 as the claim
states (see `c5_dry_run_counterexample`). -/
theorem c5_dry_run_behavior (gv : String) (la lt : List Entry) (fs : List String)
    (validOk : Bool) (f : Fault) (st0 : Store) :
    (registry_upsert_run gv la lt fs true validOk f st0).store = st0 ∧
    (registry_upsert_run gv la lt fs true validOk f st0).writeOps = [] ∧
    (registry_upsert_run gv la lt fs true validOk f st0).releaseReturned = none ∧
    (validOk = true →
      ∀ a t, merge_registries_model la lt st0 gv fs = some (a, t) →
        (registry_upsert_run gv la lt fs true validOk f st0).dryLog = some (a, t) ∧
        (registry_upsert_run gv la lt fs true validOk f st0).exitCode =
          (if a.success && t.success then 0 else 1)) := by
  cases validOk with
  | false =>
    refine ⟨by simp [registry_upsert_run], by simp [registry_upsert_run],
      by simp [registry_upsert_run], ?_⟩
    intro hx
    cases hx
  | true =>
    cases hm : merge_registries_model la lt st0 gv fs with
    | none =>
      refine ⟨by simp [registry_upsert_run, hm], by simp [registry_upsert_run, hm],
        by simp [registry_upsert_run, hm], ?_⟩
      intro _ a t hmm
      cases hmm
    | some p =>
      obtain ⟨a0, t0⟩ := p
      refine ⟨by simp [registry_upsert_run, hm], by simp [registry_upsert_run, hm],
        by simp [registry_upsert_run, hm], ?_⟩
      intro _ a t hmm
      injection hmm with hmm
      injection hmm with h1 h2
      subst h1
      subst h2
      constructor
      · simp [registry_upsert_run, hm]
      · simp [registry_upsert_run, hm]

/-- C5 as stated is false on one point: a dry run whose simulated merge
predicts failure exits with code 1, not 0 (`sys.exit(1)` on the
`[DRY RUN] Merge would FAIL` path). -/
theorem c5_dry_run_counterexample :
    (registry_upsert_run "v1"
      [Entry.mk (some "a") (some (VersionVal.valid [1, 0, 0])) none ""] [] []
      true true (Fault.mk false false false)
      [("apps.json", RObj.entriesFile
        [Entry.mk (some "a") (some (VersionVal.valid [1, 0, 0])) none ""])]).exitCode
      = 1 ∧
    (registry_upsert_run "v1"
      [Entry.mk (some "a") (some (VersionVal.valid [1, 0, 0])) none ""] [] []
      true true (Fault.mk false false false)
      [("apps.json", RObj.entriesFile
        [Entry.mk (some "a") (some (VersionVal.valid [1, 0, 0])) none ""])]).writeOps
      = [] := by
  constructor
  · decide
  · decide

/-- Witness for the amended C5 at a concrete input: a clean dry run over
an empty remote exits 0, reports the log, and leaves the store and write
log untouched. -/
theorem c5_dry_run_behavior_witness :
    (registry_upsert_run "v1"
      [Entry.mk (some "a") (some (VersionVal.valid [1, 0, 0])) none ""] [] []
      true true (Fault.mk false false false) []).store = [] ∧
    (registry_upsert_run "v1"
      [Entry.mk (some "a") (some (VersionVal.valid [1, 0, 0])) none ""] [] []
      true true (Fault.mk false false false) []).writeOps = [] ∧
    (registry_upsert_run "v1"
      [Entry.mk (some "a") (some (VersionVal.valid [1, 0, 0])) none ""] [] []
      true true (Fault.mk false false false) []).exitCode = 0 := by
  have h := c5_dry_run_behavior "v1"
    [Entry.mk (some "a") (some (VersionVal.valid [1, 0, 0])) none ""] [] []
    true (Fault.mk false false false) []
  have h4 := h.2.2.2 rfl
    ((merge_registries_model
        [Entry.mk (some "a") (some (VersionVal.valid [1, 0, 0])) none ""] [] []
        "v1" []).getD
      (MergeResult.mk false [] [] [], MergeResult.mk false [] [] [])).1
    ((merge_registries_model
        [Entry.mk (some "a") (some (VersionVal.valid [1, 0, 0])) none ""] [] []
        "v1" []).getD
      (MergeResult.mk false [] [] [], MergeResult.mk false [] [] [])).2
    (by decide)
  exact ⟨h.1, h.2.1, h4.2.trans (by decide)⟩

end RegistryUpsert
